import Mathlib

/-
  Verification of the chainpulse data-to-entity pipeline.

  Shallow embedding of:
  * src/processing/TransactionQueue.ts  (per-chain fair queue: push / trim / round-robin drain)
  * src/processing/AdaptiveWhaleDetector.ts and src/processing/WhaleDetector.ts
  * the transaction classifier mapTransaction (whale-classification path)
  * the ParticlePool lifecycle engine (spawn / update / attraction pass)

  JS numbers are modelled as ℚ where the code only performs field arithmetic
  and comparisons (queue, detector, classifier whale path), and as ℝ where the
  code uses transcendental functions (particle lifecycle: exp, log, sqrt).
-/

namespace Chainpulse

/-! ## Fair multiplexed transaction queue (src/processing/TransactionQueue.ts)

`ProcessedTransaction` is modelled by `QTx`: the queue logic reads only the
`chainId` and `isWhale` fields; the remaining payload (hash, value, visual
descriptor, ...) is irrelevant to the queue and represented by an opaque `tag`
so that distinct pushed items stay distinguishable. -/

structure QTx where
  chainId : String
  isWhale : Bool
  tag : Nat
deriving DecidableEq

instance : Inhabited QTx := ⟨⟨"", false, 0⟩⟩

/-- The queue state.  The source keeps a `Map` of sub-queues plus a separate
`chainOrder` insertion-order array and a rotation pointer; since the `Map`'s
keys and `chainOrder` are kept in sync (a chain id is appended to `chainOrder`
exactly when its sub-queue is created), both are represented by one
association list in insertion order.  `chainOrder` is recovered as
`chains.map Prod.fst`. -/
structure TransactionQueue where
  chains : List (String × List QTx)
  roundRobinIdx : Nat
deriving DecidableEq

def MAX_PER_CHAIN : Nat := 60
def TRIM_TARGET : Nat := 30

/-- JS `arr.slice(-k)` for a non-negative number `k`: the last `k` elements,
except that `slice(-0)` is `slice(0)`, i.e. the whole array. -/
def sliceLast {α : Type} (l : List α) (k : Nat) : List α :=
  if k = 0 then l else l.drop (l.length - k)

/-- The overflow trim inside `push`: when a sub-queue exceeds the cap, keep
every whale and the most recent non-whales.  `Math.max(TRIM_TARGET - whales.length, 0)`
is truncated subtraction on `Nat`. -/
def trimIfNeeded (q : List QTx) : List QTx :=
  if MAX_PER_CHAIN < q.length then
    let whales := q.filter (fun t => t.isWhale)
    let normal := q.filter (fun t => !t.isWhale)
    whales ++ sliceLast normal (TRIM_TARGET - whales.length)
  else q

/-- One step of the `grouped` map construction in `push`: JS `Map` preserves
insertion order, so it is an association list; a new chain id is appended,
an existing one gets the transaction appended to its batch. -/
def addToGroup (acc : List (String × List QTx)) (tx : QTx) : List (String × List QTx) :=
  if acc.any (fun kv => kv.1 == tx.chainId) then
    acc.map (fun kv => if kv.1 == tx.chainId then (kv.1, kv.2 ++ [tx]) else kv)
  else acc ++ [(tx.chainId, [tx])]

/-- `push`'s first phase: group the incoming batch by chain id. -/
def groupByChain (txs : List QTx) : List (String × List QTx) :=
  txs.foldl addToGroup []

/-- `push`'s second phase for one `(chainId, batch)` group: create the
sub-queue if missing (appending the chain id to the order), append the batch,
then trim if over the cap. -/
def TransactionQueue.pushGroup (st : TransactionQueue) (cid : String) (g : List QTx) :
    TransactionQueue :=
  if st.chains.any (fun kv => kv.1 == cid) then
    { st with chains :=
        st.chains.map (fun kv => if kv.1 == cid then (kv.1, trimIfNeeded (kv.2 ++ g)) else kv) }
  else
    { st with chains := st.chains ++ [(cid, trimIfNeeded g)] }

/-- `TransactionQueue.push`.  The early return on an empty batch is subsumed:
grouping an empty batch yields no groups. -/
def TransactionQueue.push (st : TransactionQueue) (txs : List QTx) : TransactionQueue :=
  (groupByChain txs).foldl (fun s kv => s.pushGroup kv.1 kv.2) st

/-- `get size()`: total number of queued transactions. -/
def TransactionQueue.size (st : TransactionQueue) : Nat :=
  (st.chains.map (fun kv => kv.2.length)).sum

/-- `clear()`. -/
def TransactionQueue.clearQueue : TransactionQueue := ⟨[], 0⟩

/-- The empty queue (freshly constructed object). -/
def emptyQueue : TransactionQueue := ⟨[], 0⟩

/-- The sub-queue stored for a chain id (`this.chains.get(chainId)`),
defaulting to `[]` when the chain is unknown. -/
def subQueue (st : TransactionQueue) (cid : String) : List QTx :=
  ((st.chains.find? (fun kv => kv.1 == cid)).map Prod.snd).getD []

/-- The `while` loop of `drain`: each step looks at the chain under the
rotation pointer; if its sub-queue is non-empty the head is taken (`shift`)
and `emptyPasses` resets, otherwise `emptyPasses` increments; the pointer
advances mod the number of chains either way.  The loop stops once `remaining`
hits zero or a full rotation found nothing. -/
def drainLoop (st : TransactionQueue) (remaining emptyPasses : Nat) (acc : List QTx) :
    List QTx × TransactionQueue :=
  if remaining = 0 then (acc.reverse, st)
  else if st.chains.length ≤ emptyPasses then (acc.reverse, st)
  else
    let len := st.chains.length
    let cid := (st.chains.map Prod.fst).getD (st.roundRobinIdx % len) ""
    match subQueue st cid with
    | t :: _ =>
        drainLoop
          ⟨st.chains.map (fun kv => if kv.1 == cid then (kv.1, kv.2.tail) else kv),
            (st.roundRobinIdx + 1) % len⟩
          (remaining - 1) 0 (t :: acc)
    | [] =>
        drainLoop ⟨st.chains, (st.roundRobinIdx + 1) % len⟩ remaining (emptyPasses + 1) acc
termination_by (remaining, st.chains.length - emptyPasses)
decreasing_by
  · exact Prod.Lex.left _ _ (by omega)
  · exact Prod.Lex.right _ (by omega)

/-- `drain(count)`: returns the drained list and the mutated queue.  The
source's early return when no chain is known is subsumed by the
`emptyPasses` guard (`0 ≤ 0`). -/
def TransactionQueue.drain (st : TransactionQueue) (count : Nat) :
    List QTx × TransactionQueue :=
  drainLoop st count 0 []

/-- A sequence of `push` calls starting from a given state. -/
def pushAll (st : TransactionQueue) (batches : List (List QTx)) : TransactionQueue :=
  batches.foldl TransactionQueue.push st

/-! ### Queue invariants and supporting lemmas -/

/-- The `chainOrder` array of the source: the chain ids in insertion order. -/
def keysOf (l : List (String × List QTx)) : List String := l.map Prod.fst

/-- Every transaction sits in the sub-queue of its own chain
(guaranteed by the grouping in `push`). -/
def EntriesOk (l : List (String × List QTx)) : Prop :=
  ∀ kv ∈ l, ∀ t ∈ kv.2, t.chainId = kv.1

lemma any_key_iff_mem {l : List (String × List QTx)} {c : String} :
    l.any (fun kv => kv.1 == c) = true ↔ c ∈ keysOf l := by
  rw [List.any_eq_true]
  constructor
  · rintro ⟨kv, hkv, h⟩
    have : kv.1 = c := beq_iff_eq.mp h
    exact this ▸ List.mem_map_of_mem Prod.fst hkv
  · intro h
    obtain ⟨kv, hkv, heq⟩ := List.mem_map.mp h
    exact ⟨kv, hkv, beq_iff_eq.mpr heq⟩

lemma subQueue_of_not_mem {st : TransactionQueue} {c : String}
    (h : c ∉ keysOf st.chains) : subQueue st c = [] := by
  have hfind : st.chains.find? (fun kv => kv.1 == c) = none := by
    rw [List.find?_eq_none]
    intro kv hkv hbeq
    exact h ((beq_iff_eq.mp hbeq) ▸ List.mem_map_of_mem Prod.fst hkv)
  simp [subQueue, hfind]

lemma keysOf_cons {kv : String × List QTx} {rest : List (String × List QTx)} :
    keysOf (kv :: rest) = kv.1 :: keysOf rest := rfl

lemma subQueue_of_mem {st : TransactionQueue} {c : String} {q : List QTx}
    (hnd : (keysOf st.chains).Nodup) (hmem : (c, q) ∈ st.chains) :
    subQueue st c = q := by
  obtain ⟨st, rr⟩ := st
  simp only [subQueue]
  induction st with
  | nil => simp at hmem
  | cons kv rest ih =>
    rw [keysOf_cons, List.nodup_cons] at hnd
    rcases List.mem_cons.mp hmem with heq | htail
    · subst heq
      rw [List.find?_cons_of_pos _ (by simp)]
      rfl
    · have hc : c ∈ keysOf rest := List.mem_map_of_mem Prod.fst htail
      have hne : kv.1 ≠ c := fun h => hnd.1 (h ▸ hc)
      rw [List.find?_cons_of_neg _ (by simp [hne])]
      exact ih hnd.2 htail

lemma mem_sliceLast {α : Type} {l : List α} {k : Nat} {a : α}
    (h : a ∈ sliceLast l k) : a ∈ l := by
  unfold sliceLast at h
  split at h
  · exact h
  · exact List.mem_of_mem_drop h

lemma trimIfNeeded_subset {q : List QTx} {t : QTx} (h : t ∈ trimIfNeeded q) : t ∈ q := by
  unfold trimIfNeeded at h
  split at h
  · rcases List.mem_append.mp h with h1 | h1
    · exact (List.mem_filter.mp h1).1
    · exact (List.mem_filter.mp (mem_sliceLast h1)).1
  · exact h

lemma trimIfNeeded_whale_mem {q : List QTx} {t : QTx}
    (hmem : t ∈ q) (hw : t.isWhale = true) : t ∈ trimIfNeeded q := by
  unfold trimIfNeeded
  split
  · exact List.mem_append.mpr (Or.inl (List.mem_filter.mpr ⟨hmem, hw⟩))
  · exact hmem

lemma trimIfNeeded_of_le {q : List QTx} (h : q.length ≤ MAX_PER_CHAIN) :
    trimIfNeeded q = q := by
  unfold trimIfNeeded
  rw [if_neg]
  omega

/-! ### Characterization of `pushGroup`, `groupByChain` and `push` -/

lemma pushGroup_chains_length (st : TransactionQueue) (cid : String) (g : List QTx)
    (h : cid ∈ keysOf st.chains) :
    (st.pushGroup cid g).chains.length = st.chains.length := by
  unfold TransactionQueue.pushGroup
  rw [if_pos (any_key_iff_mem.mpr h)]
  simp

lemma pushGroup_keysOf (st : TransactionQueue) (cid : String) (g : List QTx) :
    keysOf (st.pushGroup cid g).chains =
      if cid ∈ keysOf st.chains then keysOf st.chains else keysOf st.chains ++ [cid] := by
  unfold TransactionQueue.pushGroup
  by_cases h : cid ∈ keysOf st.chains
  · rw [if_pos (any_key_iff_mem.mpr h), if_pos h]
    simp only [keysOf, List.map_map]
    apply List.map_congr_left
    intro kv _
    simp only [Function.comp]
    split <;> rfl
  · rw [if_neg (fun ha => h (any_key_iff_mem.mp ha)), if_neg h]
    simp [keysOf]

lemma pushGroup_rrIdx (st : TransactionQueue) (cid : String) (g : List QTx) :
    (st.pushGroup cid g).roundRobinIdx = st.roundRobinIdx := by
  unfold TransactionQueue.pushGroup
  by_cases h : st.chains.any (fun kv => kv.1 == cid) <;> simp [h]

lemma pushGroup_subQueue (st : TransactionQueue) (cid : String) (g : List QTx)
    (c : String) :
    subQueue (st.pushGroup cid g) c =
      if c = cid then trimIfNeeded (subQueue st cid ++ g) else subQueue st c := by
  unfold TransactionQueue.pushGroup
  by_cases hmem : st.chains.any (fun kv => kv.1 == cid)
  · rw [if_pos hmem]
    have hpred : ((fun kv : String × List QTx => kv.1 == c) ∘
        fun kv => if kv.1 == cid then (kv.1, trimIfNeeded (kv.2 ++ g)) else kv) =
        (fun kv : String × List QTx => kv.1 == c) := by
      funext kv
      simp only [Function.comp]
      split <;> rfl
    have hfind : ∀ l : List (String × List QTx),
        (l.map (fun kv => if kv.1 == cid then (kv.1, trimIfNeeded (kv.2 ++ g)) else kv)).find?
            (fun kv => kv.1 == c) =
          (l.find? (fun kv => kv.1 == c)).map
            (fun kv => if kv.1 == cid then (kv.1, trimIfNeeded (kv.2 ++ g)) else kv) := by
      intro l
      rw [List.find?_map, hpred]
    simp only [subQueue, hfind]
    rcases hfq : st.chains.find? (fun kv => kv.1 == c) with _ | kv0
    · have hcnot : c ∉ keysOf st.chains := by
        intro hc
        obtain ⟨kv, hkv, heq⟩ := List.mem_map.mp hc
        rw [List.find?_eq_none] at hfq
        exact hfq kv hkv (beq_iff_eq.mpr heq)
      by_cases hcc : c = cid
      · exact absurd (any_key_iff_mem.mp hmem) (hcc ▸ hcnot)
      · simp [hcc, hfq]
    · have hkvc : kv0.1 = c :=
        beq_iff_eq.mp (List.find?_some (p := fun kv : String × List QTx => kv.1 == c) hfq)
      by_cases hcc : c = cid
      · subst hcc
        rw [if_pos rfl]
        simp [hkvc, hfq]
      · rw [if_neg hcc]
        have hne : ¬ (kv0.1 == cid) = true := by simp [hkvc, hcc]
        simp only [hfq, Option.map_some', Option.getD_some]
        rw [if_neg hne]
  · rw [if_neg hmem]
    have hnot : cid ∉ keysOf st.chains := fun h => hmem (any_key_iff_mem.mpr h)
    have hsingle : List.find? (fun kv => kv.1 == c) [(cid, trimIfNeeded g)] =
        if cid = c then some (cid, trimIfNeeded g) else none := by
      by_cases hcc : cid = c
      · rw [List.find?_cons_of_pos _ (by simp [hcc]), if_pos hcc]
      · rw [List.find?_cons_of_neg _ (by simp [hcc]), if_neg hcc]
        rfl
    simp only [subQueue, List.find?_append, hsingle]
    by_cases hcc : c = cid
    · subst hcc
      have hfq : st.chains.find? (fun kv => kv.1 == c) = none := by
        rw [List.find?_eq_none]
        intro kv hkv hbeq
        exact hnot ((beq_iff_eq.mp hbeq) ▸ List.mem_map_of_mem Prod.fst hkv)
      simp [hfq]
    · rw [if_neg (fun h => hcc h.symm), if_neg hcc]
      simp

/-- Invariant of the grouping fold in `push`: the accumulator maps each chain
id seen so far to exactly the processed transactions of that chain, in order. -/
lemma groupBy_invariant :
    ∀ (txs : List QTx) (acc : List (String × List QTx)) (done : List QTx),
      (keysOf acc).Nodup →
      (∀ kv ∈ acc, kv.2 = done.filter (fun t => t.chainId == kv.1)) →
      (∀ kv ∈ acc, kv.2 ≠ []) →
      (∀ c, c ∉ keysOf acc → done.filter (fun t => t.chainId == c) = []) →
      (keysOf (txs.foldl addToGroup acc)).Nodup ∧
      (∀ kv ∈ txs.foldl addToGroup acc,
        kv.2 = (done ++ txs).filter (fun t => t.chainId == kv.1)) ∧
      (∀ kv ∈ txs.foldl addToGroup acc, kv.2 ≠ []) ∧
      (∀ c, c ∉ keysOf (txs.foldl addToGroup acc) →
        (done ++ txs).filter (fun t => t.chainId == c) = []) := by
  intro txs
  induction txs with
  | nil =>
    intro acc done h1 h2 h3 h4
    simp only [List.foldl_nil, List.append_nil]
    exact ⟨h1, h2, h3, h4⟩
  | cons tx rest ih =>
    intro acc done h1 h2 h3 h4
    have step : (keysOf (addToGroup acc tx)).Nodup ∧
        (∀ kv ∈ addToGroup acc tx,
          kv.2 = (done ++ [tx]).filter (fun t => t.chainId == kv.1)) ∧
        (∀ kv ∈ addToGroup acc tx, kv.2 ≠ []) ∧
        (∀ c, c ∉ keysOf (addToGroup acc tx) →
          (done ++ [tx]).filter (fun t => t.chainId == c) = []) := by
      unfold addToGroup
      by_cases hmem : acc.any (fun kv => kv.1 == tx.chainId)
      · rw [if_pos hmem]
        have hkeys : keysOf (acc.map
            (fun kv => if kv.1 == tx.chainId then (kv.1, kv.2 ++ [tx]) else kv)) = keysOf acc := by
          simp only [keysOf, List.map_map]
          apply List.map_congr_left
          intro kv _
          simp only [Function.comp]
          split <;> rfl
        refine ⟨hkeys ▸ h1, ?_, ?_, ?_⟩
        · intro kv hkv
          obtain ⟨kv0, hkv0, heq⟩ := List.mem_map.mp hkv
          by_cases hc : (kv0.1 == tx.chainId) = true
          · rw [if_pos hc] at heq
            subst heq
            simp only [List.filter_append]
            rw [← h2 kv0 hkv0]
            simp [List.filter, beq_iff_eq.mp hc]
          · rw [if_neg hc] at heq
            subst heq
            simp only [List.filter_append]
            rw [← h2 kv0 hkv0]
            have : ¬ (tx.chainId == kv0.1) = true := by
              intro h
              exact hc (beq_iff_eq.mpr (beq_iff_eq.mp h).symm)
            simp [List.filter, this]
        · intro kv hkv
          obtain ⟨kv0, hkv0, heq⟩ := List.mem_map.mp hkv
          by_cases hc : (kv0.1 == tx.chainId) = true
          · rw [if_pos hc] at heq
            subst heq
            simp
          · rw [if_neg hc] at heq
            subst heq
            exact h3 kv0 hkv0
        · intro c hc
          rw [hkeys] at hc
          simp only [List.filter_append]
          rw [h4 c hc]
          have : ¬ (tx.chainId == c) = true := by
            intro h
            exact hc ((beq_iff_eq.mp h) ▸ any_key_iff_mem.mp hmem)
          simp [List.filter, this]
      · rw [if_neg hmem]
        have hnot : tx.chainId ∉ keysOf acc := fun h => hmem (any_key_iff_mem.mpr h)
        have hkeys : keysOf (acc ++ [(tx.chainId, [tx])]) = keysOf acc ++ [tx.chainId] := by
          simp [keysOf]
        refine ⟨?_, ?_, ?_, ?_⟩
        · rw [hkeys]
          simp only [List.nodup_append, List.nodup_cons]
          exact ⟨h1, by simp, by simpa [List.disjoint_singleton] using hnot⟩
        · intro kv hkv
          rcases List.mem_append.mp hkv with hl | hr
          · simp only [List.filter_append]
            rw [← h2 kv hl]
            have hne : kv.1 ≠ tx.chainId := by
              intro h
              exact hnot (h ▸ List.mem_map_of_mem Prod.fst hl)
            have : ¬ (tx.chainId == kv.1) = true := by
              intro h
              exact hne (beq_iff_eq.mp h).symm
            simp [List.filter, this]
          · have : kv = (tx.chainId, [tx]) := by simpa using hr
            subst this
            simp only [List.filter_append]
            rw [h4 tx.chainId hnot]
            simp [List.filter]
        · intro kv hkv
          rcases List.mem_append.mp hkv with hl | hr
          · exact h3 kv hl
          · have : kv = (tx.chainId, [tx]) := by simpa using hr
            subst this
            simp
        · intro c hc
          rw [hkeys] at hc
          simp only [List.mem_append, List.mem_singleton, not_or] at hc
          simp only [List.filter_append]
          rw [h4 c hc.1]
          have : ¬ (tx.chainId == c) = true := by
            intro h
            exact hc.2 (beq_iff_eq.mp h).symm
          simp [List.filter, this]
    have := ih (addToGroup acc tx) (done ++ [tx]) step.1 step.2.1 step.2.2.1 step.2.2.2
    simpa [List.append_assoc] using this

/-- `groupByChain` produces nodup chain keys, each holding exactly that
chain's transactions of the batch, in order, and covers every chain present
in the batch. -/
lemma groupByChain_spec (txs : List QTx) :
    (keysOf (groupByChain txs)).Nodup ∧
    (∀ kv ∈ groupByChain txs, kv.2 = txs.filter (fun t => t.chainId == kv.1)) ∧
    (∀ kv ∈ groupByChain txs, kv.2 ≠ []) ∧
    (∀ c, c ∉ keysOf (groupByChain txs) → txs.filter (fun t => t.chainId == c) = []) := by
  have := groupBy_invariant txs [] [] (by simp [keysOf]) (by simp) (by simp) (by simp)
  simpa [groupByChain] using this

/-- Effect of folding `pushGroup` over a list of groups with pairwise
distinct chain ids: each group's chain gets its batch appended (and trimmed),
all other chains are untouched; the rotation pointer is untouched. -/
lemma foldl_pushGroup_spec :
    ∀ (groups : List (String × List QTx)) (st : TransactionQueue),
      (keysOf groups).Nodup →
      (keysOf st.chains).Nodup →
      (∀ c, subQueue (groups.foldl (fun s kv => s.pushGroup kv.1 kv.2) st) c =
        match groups.find? (fun kv => kv.1 == c) with
        | some kv => trimIfNeeded (subQueue st c ++ kv.2)
        | none => subQueue st c) ∧
      (keysOf (groups.foldl (fun s kv => s.pushGroup kv.1 kv.2) st).chains).Nodup ∧
      (groups.foldl (fun s kv => s.pushGroup kv.1 kv.2) st).roundRobinIdx =
        st.roundRobinIdx := by
  intro groups
  induction groups with
  | nil =>
    intro st _ hnd
    exact ⟨fun c => rfl, hnd, rfl⟩
  | cons g0 rest ih =>
    intro st hg hnd
    rw [keysOf_cons, List.nodup_cons] at hg
    have hnd1 : (keysOf (st.pushGroup g0.1 g0.2).chains).Nodup := by
      rw [pushGroup_keysOf]
      split
      · exact hnd
      · simp only [List.nodup_append, List.nodup_cons]
        refine ⟨hnd, by simp, ?_⟩
        simpa [List.disjoint_singleton] using (by assumption : g0.1 ∉ keysOf st.chains)
    have := ih (st.pushGroup g0.1 g0.2) hg.2 hnd1
    refine ⟨?_, by simpa [List.foldl_cons] using this.2.1,
      by simpa [List.foldl_cons, pushGroup_rrIdx] using this.2.2⟩
    intro c
    rw [List.foldl_cons]
    rw [this.1 c]
    by_cases hcc : g0.1 = c
    · have hfr : rest.find? (fun kv => kv.1 == c) = none := by
        rw [List.find?_eq_none]
        intro kv hkv hbeq
        exact hg.1 (hcc ▸ (beq_iff_eq.mp hbeq) ▸ List.mem_map_of_mem Prod.fst hkv)
      rw [List.find?_cons_of_pos _ (by simp [hcc]), hfr]
      rw [pushGroup_subQueue st g0.1 g0.2 c, if_pos hcc.symm, hcc]
    · rw [List.find?_cons_of_neg _ (by simp [hcc])]
      rw [pushGroup_subQueue st g0.1 g0.2 c, if_neg (fun h => hcc h.symm)]

/-- Characterization of `push`: a chain present in the batch gets that
chain's transactions appended (then trimmed), every other chain is untouched. -/
lemma push_subQueue (st : TransactionQueue) (B : List QTx)
    (hnd : (keysOf st.chains).Nodup) (c : String) :
    subQueue (st.push B) c =
      if B.filter (fun t => t.chainId == c) = [] then subQueue st c
      else trimIfNeeded (subQueue st c ++ B.filter (fun t => t.chainId == c)) := by
  obtain ⟨hg1, hg2, hg3, hg4⟩ := groupByChain_spec B
  have := (foldl_pushGroup_spec (groupByChain B) st hg1 hnd).1 c
  unfold TransactionQueue.push
  rw [this]
  rcases hf : (groupByChain B).find? (fun kv => kv.1 == c) with _ | kv
  · have hc : c ∉ keysOf (groupByChain B) := by
      intro hc
      obtain ⟨kv, hkv, heq⟩ := List.mem_map.mp hc
      rw [List.find?_eq_none] at hf
      exact hf kv hkv (beq_iff_eq.mpr heq)
    rw [if_pos (hg4 c hc), hf]
  · have hkvc : kv.1 = c :=
      beq_iff_eq.mp (List.find?_some (p := fun kv : String × List QTx => kv.1 == c) hf)
    have hkv : kv ∈ groupByChain B := List.mem_of_find?_eq_some hf
    have hb : kv.2 = B.filter (fun t => t.chainId == c) := hkvc ▸ hg2 kv hkv
    rw [if_neg (hb ▸ hg3 kv hkv), ← hb, hf]

lemma push_keys_nodup (st : TransactionQueue) (B : List QTx)
    (hnd : (keysOf st.chains).Nodup) :
    (keysOf (st.push B).chains).Nodup :=
  (foldl_pushGroup_spec (groupByChain B) st (groupByChain_spec B).1 hnd).2.1

lemma foldl_pushGroup_rrIdx :
    ∀ (groups : List (String × List QTx)) (st : TransactionQueue),
      (groups.foldl (fun s kv => s.pushGroup kv.1 kv.2) st).roundRobinIdx =
        st.roundRobinIdx := by
  intro groups
  induction groups with
  | nil => intro st; rfl
  | cons g0 rest ih =>
    intro st
    rw [List.foldl_cons, ih, pushGroup_rrIdx]

lemma push_rrIdx (st : TransactionQueue) (B : List QTx) :
    (st.push B).roundRobinIdx = st.roundRobinIdx :=
  foldl_pushGroup_rrIdx (groupByChain B) st

/-- State invariant tying a queue to the list `P` of all transactions pushed
so far, valid as long as no sub-queue ever overflowed the cap. -/
def Inv (st : TransactionQueue) (P : List QTx) : Prop :=
  (keysOf st.chains).Nodup ∧ st.roundRobinIdx = 0 ∧
  ∀ c, subQueue st c = P.filter (fun t => t.chainId == c)

lemma inv_empty : Inv emptyQueue [] := by
  refine ⟨by simp [keysOf, emptyQueue], rfl, fun c => ?_⟩
  simp [subQueue, emptyQueue]

lemma inv_push {st : TransactionQueue} {P : List QTx} (B : List QTx)
    (hinv : Inv st P)
    (hcap : ∀ c, ((P ++ B).filter (fun t => t.chainId == c)).length ≤ MAX_PER_CHAIN) :
    Inv (st.push B) (P ++ B) := by
  obtain ⟨hnd, hrr, hsub⟩ := hinv
  refine ⟨push_keys_nodup st B hnd, by rw [push_rrIdx, hrr], fun c => ?_⟩
  rw [push_subQueue st B hnd c]
  by_cases hb : B.filter (fun t => t.chainId == c) = []
  · rw [if_pos hb, hsub c, List.filter_append, hb, List.append_nil]
  · rw [if_neg hb, hsub c, ← List.filter_append]
    exact trimIfNeeded_of_le (hcap c)

lemma inv_pushAll :
    ∀ (Bs : List (List QTx)) (st : TransactionQueue) (P : List QTx),
      Inv st P →
      (∀ c, (((P ++ Bs.flatten).filter (fun t => t.chainId == c)).length ≤ MAX_PER_CHAIN)) →
      Inv (pushAll st Bs) (P ++ Bs.flatten) := by
  intro Bs
  induction Bs with
  | nil =>
    intro st P hinv _
    simpa [pushAll] using hinv
  | cons B rest ih =>
    intro st P hinv hcap
    have hcap1 : ∀ c, ((P ++ B).filter (fun t => t.chainId == c)).length ≤ MAX_PER_CHAIN := by
      intro c
      have := hcap c
      rw [show P ++ (B :: rest).flatten = (P ++ B) ++ rest.flatten by simp] at this
      rw [List.filter_append, List.length_append] at this
      omega
    have h1 : Inv (st.push B) (P ++ B) := inv_push B hinv hcap1
    have h2 := ih (st.push B) (P ++ B) h1 (by
      intro c
      have := hcap c
      rw [show P ++ (B :: rest).flatten = (P ++ B) ++ rest.flatten by simp] at this
      exact this)
    rw [show P ++ (B :: rest).flatten = (P ++ B) ++ rest.flatten by simp]
    simpa [pushAll] using h2

/-! ### Round-robin drain lemmas -/

/-- One round-robin rotation's worth of sub-queue heads, in chain order. -/
def headsOf (l : List (String × List QTx)) : List QTx :=
  l.map (fun kv => kv.2.headI)

/-- Remove the head of every sub-queue. -/
def beheadAll (l : List (String × List QTx)) : List (String × List QTx) :=
  l.map (fun kv => (kv.1, kv.2.tail))

/-- The items collected by `m` full round-robin rotations over non-empty
sub-queues: one head from each chain per rotation, in chain order. -/
def roundsResult (chains : List (String × List QTx)) : Nat → List QTx
  | 0 => []
  | m + 1 => headsOf chains ++ roundsResult (beheadAll chains) m

lemma drainLoop_zero (st : TransactionQueue) (acc : List QTx) (e : Nat) :
    drainLoop st 0 e acc = (acc.reverse, st) := by
  rw [drainLoop]
  simp

lemma drainLoop_exhausted (st : TransactionQueue) (acc : List QTx) (r e : Nat)
    (hl : st.chains.length ≤ e) :
    drainLoop st r e acc = (acc.reverse, st) := by
  rcases Nat.eq_zero_or_pos r with hr | hr
  · subst hr
    exact drainLoop_zero st acc e
  · rw [drainLoop, if_neg (by omega), if_pos hl]

lemma drainLoop_take (st : TransactionQueue) (acc : List QTx) (r e : Nat) (hr : r ≠ 0)
    (hl : e < st.chains.length) (cid : String)
    (hcid : (st.chains.map Prod.fst).getD (st.roundRobinIdx % st.chains.length) "" = cid)
    (t : QTx) (rest : List QTx)
    (hq : subQueue st cid = t :: rest) :
    drainLoop st r e acc =
      drainLoop
        ⟨st.chains.map (fun kv => if kv.1 == cid then (kv.1, kv.2.tail) else kv),
          (st.roundRobinIdx + 1) % st.chains.length⟩
        (r - 1) 0 (t :: acc) := by
  rw [drainLoop]
  rw [if_neg hr, if_neg (not_le.mpr hl)]
  simp only [hcid, hq]

lemma drainLoop_skip (st : TransactionQueue) (acc : List QTx) (r e : Nat) (hr : r ≠ 0)
    (hl : e < st.chains.length) (cid : String)
    (hcid : (st.chains.map Prod.fst).getD (st.roundRobinIdx % st.chains.length) "" = cid)
    (hq : subQueue st cid = []) :
    drainLoop st r e acc =
      drainLoop ⟨st.chains, (st.roundRobinIdx + 1) % st.chains.length⟩ r (e + 1) acc := by
  rw [drainLoop]
  rw [if_neg hr, if_neg (not_le.mpr hl)]
  simp only [hcid, hq]

/-- A successful `drain` step at rotation position `pre.length`: the head of
that chain's sub-queue is taken and the pointer advances. -/
lemma drainLoop_step_at (pre rest' : List (String × List QTx)) (e0 : String × List QTx)
    (rem : Nat) (acc : List QTx) (t : QTx) (q' : List QTx)
    (hnd : (keysOf (pre ++ e0 :: rest')).Nodup)
    (he : e0.2 = t :: q')
    (hrem : rem ≠ 0) :
    drainLoop ⟨pre ++ e0 :: rest', pre.length⟩ rem 0 acc =
      drainLoop
        ⟨pre ++ (e0.1, e0.2.tail) :: rest',
          (pre.length + 1) % (pre ++ e0 :: rest').length⟩
        (rem - 1) 0 (t :: acc) := by
  have hlen : pre.length < (pre ++ e0 :: rest').length := by
    simp [List.length_append]
  have hndsplit := hnd
  rw [keysOf, List.map_append, List.nodup_append] at hndsplit
  obtain ⟨hnd_pre, hnd_cons, hdisj⟩ := hndsplit
  have hcid : ((pre ++ e0 :: rest').map Prod.fst).getD
      (pre.length % (pre ++ e0 :: rest').length) "" = e0.1 := by
    rw [Nat.mod_eq_of_lt hlen]
    rw [List.getD_eq_getElem _ _ (by simpa using hlen)]
    rw [List.getElem_map]
    congr 1
    rw [List.getElem_append_right (le_refl pre.length)]
    simp
  have hsub : subQueue ⟨pre ++ e0 :: rest', pre.length⟩ e0.1 = t :: q' := by
    rw [← he]
    exact subQueue_of_mem hnd (by simp)
  have hupd : (pre ++ e0 :: rest').map
      (fun kv => if kv.1 == e0.1 then (kv.1, kv.2.tail) else kv) =
      pre ++ (e0.1, e0.2.tail) :: rest' := by
    rw [List.map_append, List.map_cons]
    have h1 : pre.map (fun kv => if kv.1 == e0.1 then (kv.1, kv.2.tail) else kv) = pre := by
      conv_rhs => rw [← List.map_id pre]
      apply List.map_congr_left
      intro kv hkv
      have hne : kv.1 ≠ e0.1 := by
        intro h
        exact hdisj (List.mem_map_of_mem Prod.fst hkv) (by simp [h])
      simp [hne]
    have h2 : rest'.map (fun kv => if kv.1 == e0.1 then (kv.1, kv.2.tail) else kv) = rest' := by
      conv_rhs => rw [← List.map_id rest']
      apply List.map_congr_left
      intro kv hkv
      have hne : kv.1 ≠ e0.1 := by
        intro h
        rw [List.map_cons, List.nodup_cons] at hnd_cons
        exact hnd_cons.1 (h ▸ List.mem_map_of_mem Prod.fst hkv)
      simp [hne]
    rw [h1, h2]
    simp
  have hstep := drainLoop_take ⟨pre ++ e0 :: rest', pre.length⟩ acc rem 0 hrem
    (by simpa using hlen) e0.1 hcid t q' hsub
  rw [hstep]
  simp only [TransactionQueue.mk.injEq]
  rw [hupd]

/-- Walking the rotation pointer from position `pre.length` to the end of the
chain list, with all remaining sub-queues non-empty, takes exactly one head
from each of those chains and wraps the pointer to `0`. -/
lemma drain_seg :
    ∀ (suf pre : List (String × List QTx)) (rem : Nat) (acc : List QTx),
      (keysOf (pre ++ suf)).Nodup →
      suf ≠ [] →
      (∀ kv ∈ suf, kv.2 ≠ []) →
      suf.length ≤ rem →
      drainLoop ⟨pre ++ suf, pre.length⟩ rem 0 acc =
        drainLoop ⟨pre ++ beheadAll suf, 0⟩ (rem - suf.length) 0
          ((headsOf suf).reverse ++ acc) := by
  intro suf
  induction suf with
  | nil => intro pre rem acc _ hne; exact absurd rfl hne
  | cons e0 rest' ih =>
    intro pre rem acc hnd _ hqne hrem
    obtain ⟨t, q', he⟩ : ∃ t q', e0.2 = t :: q' := by
      rcases hq : e0.2 with _ | ⟨t, q'⟩
      · exact absurd hq (hqne e0 (by simp))
      · exact ⟨t, q', rfl⟩
    have hrem0 : rem ≠ 0 := by
      have := hrem
      simp only [List.length_cons] at this
      omega
    rw [drainLoop_step_at pre rest' e0 rem acc t q' hnd he hrem0]
    rcases rest' with _ | ⟨e1, rest''⟩
    · have hmod : (pre.length + 1) % (pre ++ [e0]).length = 0 := by
        simp [List.length_append]
      rw [hmod]
      simp only [beheadAll, headsOf, List.map_cons, List.map_nil, List.reverse_cons,
        List.reverse_nil, List.nil_append, List.length_cons, List.length_nil, he]
      simp
    · have hmod : (pre.length + 1) % (pre ++ e0 :: e1 :: rest'').length = pre.length + 1 := by
        apply Nat.mod_eq_of_lt
        simp [List.length_append]
      rw [hmod]
      have hre : pre ++ (e0.1, e0.2.tail) :: e1 :: rest'' =
          (pre ++ [(e0.1, e0.2.tail)]) ++ e1 :: rest'' := by
        simp
      have hlenpre : pre.length + 1 = (pre ++ [(e0.1, e0.2.tail)]).length := by
        simp
      rw [hre, hlenpre]
      have hndk : (keysOf ((pre ++ [(e0.1, e0.2.tail)]) ++ e1 :: rest'')).Nodup := by
        have : keysOf ((pre ++ [(e0.1, e0.2.tail)]) ++ e1 :: rest'') =
            keysOf (pre ++ e0 :: e1 :: rest'') := by
          simp [keysOf]
        rw [this]
        exact hnd
      have := ih (pre ++ [(e0.1, e0.2.tail)]) (rem - 1) (t :: acc) hndk (by simp)
        (fun kv hkv => hqne kv (by simp [hkv]))
        (by simp only [List.length_cons] at hrem ⊢; omega)
      rw [this]
      have hacc : (headsOf (e1 :: rest'')).reverse ++ t :: acc =
          (headsOf (e0 :: e1 :: rest'')).reverse ++ acc := by
        simp only [headsOf, List.map_cons, List.reverse_cons]
        rw [he]
        simp
      have hchains : (pre ++ [(e0.1, e0.2.tail)]) ++ beheadAll (e1 :: rest'') =
          pre ++ beheadAll (e0 :: e1 :: rest'') := by
        simp [beheadAll]
      have hlen2 : rem - 1 - (e1 :: rest'').length = rem - (e0 :: e1 :: rest'').length := by
        simp only [List.length_cons]
        omega
      rw [hacc, hchains, hlen2]

end Chainpulse

namespace Chainpulse

/-- `m` full rotations: starting at pointer `0` with every sub-queue holding
at least `m` items, draining `chains.length * m` items yields `roundsResult`
and drops `m` items from every sub-queue, returning the pointer to `0`. -/
lemma drain_rounds :
    ∀ (m : Nat) (st : TransactionQueue) (acc : List QTx),
      (keysOf st.chains).Nodup →
      st.chains ≠ [] →
      st.roundRobinIdx = 0 →
      (∀ kv ∈ st.chains, m ≤ kv.2.length) →
      drainLoop st (st.chains.length * m) 0 acc =
        (acc.reverse ++ roundsResult st.chains m,
          ⟨st.chains.map (fun kv => (kv.1, kv.2.drop m)), 0⟩) := by
  intro m
  induction m with
  | zero =>
    intro st acc hnd hne hrr _
    rw [Nat.mul_zero, drainLoop_zero]
    have h1 : st.chains.map (fun kv => (kv.1, kv.2.drop 0)) = st.chains := by
      simp
    rw [roundsResult, h1]
    obtain ⟨chains, rr⟩ := st
    simp only at hrr
    subst hrr
    simp
  | succ m ih =>
    intro st acc hnd hne hrr hlen
    obtain ⟨chains, rr⟩ := st
    simp only at hrr hnd hne hlen
    subst hrr
    have hseg := drain_seg chains [] (chains.length * (m + 1)) acc
      (by simpa using hnd) hne
      (fun kv hkv => by
        have := hlen kv hkv
        intro h
        rw [h] at this
        simp at this)
      (by
        have : 1 ≤ m + 1 := by omega
        calc chains.length = chains.length * 1 := by ring
        _ ≤ chains.length * (m + 1) := Nat.mul_le_mul_left _ this)
    simp only [List.nil_append, List.length_nil] at hseg
    rw [hseg]
    have hnd' : (keysOf (beheadAll chains)).Nodup := by
      have : keysOf (beheadAll chains) = keysOf chains := by
        simp [keysOf, beheadAll, List.map_map, Function.comp]
      rw [this]
      exact hnd
    have hne' : beheadAll chains ≠ [] := by
      intro h
      apply hne
      have := congrArg List.length h
      simp [beheadAll] at this
      exact this
    have hlen' : ∀ kv ∈ beheadAll chains, m ≤ kv.2.length := by
      intro kv hkv
      obtain ⟨kv0, hkv0, heq⟩ := List.mem_map.mp hkv
      subst heq
      have := hlen kv0 hkv0
      simp only [List.length_tail]
      omega
    have hlen_eq : chains.length * (m + 1) - chains.length = (beheadAll chains).length * m := by
      simp only [beheadAll, List.length_map]
      ring_nf
      omega
    rw [hlen_eq]
    have := ih ⟨beheadAll chains, 0⟩ ((headsOf chains).reverse ++ acc) hnd' hne' rfl hlen'
    simp only at this
    rw [this]
    have hres : ((headsOf chains).reverse ++ acc).reverse ++ roundsResult (beheadAll chains) m =
        acc.reverse ++ roundsResult chains (m + 1) := by
      rw [roundsResult]
      simp [List.append_assoc]
    rw [hres]
    have hfinal : (beheadAll chains).map (fun kv => (kv.1, kv.2.drop m)) =
        chains.map (fun kv => (kv.1, kv.2.drop (m + 1))) := by
      simp only [beheadAll, List.map_map]
      apply List.map_congr_left
      intro kv _
      simp only [Function.comp]
      rw [← List.drop_one, List.drop_drop, Nat.add_comm]
    rw [hfinal]

end Chainpulse

namespace Chainpulse

lemma roundsResult_length (m : Nat) :
    ∀ chains : List (String × List QTx),
      (roundsResult chains m).length = chains.length * m := by
  induction m with
  | zero => intro chains; simp [roundsResult]
  | succ m ih =>
    intro chains
    rw [roundsResult, List.length_append, ih (beheadAll chains)]
    simp only [headsOf, beheadAll, List.length_map]
    ring

lemma headsOf_filter {chains : List (String × List QTx)} {c : String} {q : List QTx}
    (hnd : (keysOf chains).Nodup)
    (hok : EntriesOk chains)
    (hne : ∀ kv ∈ chains, kv.2 ≠ [])
    (hmem : (c, q) ∈ chains) :
    (headsOf chains).filter (fun t => t.chainId == c) = [q.headI] := by
  induction chains with
  | nil => simp at hmem
  | cons kv0 rest ih =>
    rw [keysOf_cons, List.nodup_cons] at hnd
    have hh0 : kv0.2.headI ∈ kv0.2 := by
      rcases hq0 : kv0.2 with _ | ⟨t, q'⟩
      · exact absurd hq0 (hne kv0 (by simp))
      · simp
    have hcid0 : kv0.2.headI.chainId = kv0.1 := hok kv0 (by simp) _ hh0
    rcases List.mem_cons.mp hmem with heq | htail
    · have hc : kv0.1 = c := (congrArg Prod.fst heq).symm
      have hq : kv0.2 = q := (congrArg Prod.snd heq).symm
      rw [headsOf, List.map_cons, List.filter_cons_of_pos (by simp [hcid0, hc])]
      have hrest : (rest.map (fun kv => kv.2.headI)).filter (fun t => t.chainId == c) = [] := by
        rw [List.filter_eq_nil_iff]
        intro t ht
        obtain ⟨kv, hkv, heqt⟩ := List.mem_map.mp ht
        have hkne : kv.1 ≠ c := by
          intro h
          apply hnd.1
          rw [hc, ← h]
          exact List.mem_map_of_mem Prod.fst hkv
        have hht : kv.2.headI ∈ kv.2 := by
          rcases hq0 : kv.2 with _ | ⟨t', q''⟩
          · exact absurd hq0 (hne kv (by simp [hkv]))
          · simp
        have : t.chainId = kv.1 := heqt ▸ hok kv (by simp [hkv]) _ hht
        simp [this, hkne]
      rw [hrest, hq]
    · have hkne : kv0.1 ≠ c := by
        intro h
        exact hnd.1 (h ▸ List.mem_map_of_mem Prod.fst htail)
      rw [headsOf, List.map_cons, List.filter_cons_of_neg (by simp [hcid0, hkne])]
      exact ih hnd.2 (fun kv hkv => hok kv (by simp [hkv]))
        (fun kv hkv => hne kv (by simp [hkv])) htail

lemma entriesOk_beheadAll {chains : List (String × List QTx)}
    (hok : EntriesOk chains) : EntriesOk (beheadAll chains) := by
  intro kv hkv t ht
  obtain ⟨kv0, hkv0, heq⟩ := List.mem_map.mp hkv
  subst heq
  exact hok kv0 hkv0 t (List.mem_of_mem_tail ht)

lemma roundsResult_filter :
    ∀ (m : Nat) (chains : List (String × List QTx)) (c : String) (q : List QTx),
      (keysOf chains).Nodup →
      EntriesOk chains →
      (c, q) ∈ chains →
      (∀ kv ∈ chains, m ≤ kv.2.length) →
      (roundsResult chains m).filter (fun t => t.chainId == c) = q.take m := by
  intro m
  induction m with
  | zero => intro chains c q _ _ _ _; simp [roundsResult]
  | succ m ih =>
    intro chains c q hnd hok hmem hlen
    have hne : ∀ kv ∈ chains, kv.2 ≠ [] := by
      intro kv hkv h
      have := hlen kv hkv
      rw [h] at this
      simp at this
    rw [roundsResult, List.filter_append]
    rw [headsOf_filter hnd hok hne hmem]
    have hnd' : (keysOf (beheadAll chains)).Nodup := by
      have : keysOf (beheadAll chains) = keysOf chains := by
        simp [keysOf, beheadAll, List.map_map, Function.comp]
      rw [this]; exact hnd
    have hmem' : (c, q.tail) ∈ beheadAll chains := by
      have := List.mem_map_of_mem (fun kv : String × List QTx => (kv.1, kv.2.tail)) hmem
      simpa [beheadAll] using this
    have hlen' : ∀ kv ∈ beheadAll chains, m ≤ kv.2.length := by
      intro kv hkv
      obtain ⟨kv0, hkv0, heq⟩ := List.mem_map.mp hkv
      subst heq
      have := hlen kv0 hkv0
      simp only [List.length_tail]
      omega
    rw [ih (beheadAll chains) c q.tail hnd' (entriesOk_beheadAll hok) hmem' hlen']
    rcases hq : q with _ | ⟨t, q'⟩
    · exact absurd hq (hne (c, q) hmem)
    · simp

end Chainpulse

namespace Chainpulse

/-- Draining from a queue whose sub-queues are all empty collects nothing and
leaves the chain map untouched. -/
lemma drainLoop_all_empty :
    ∀ (k : Nat) (st : TransactionQueue) (n e : Nat) (acc : List QTx),
      st.chains.length - e ≤ k →
      (∀ kv ∈ st.chains, kv.2 = []) →
      (drainLoop st n e acc).1 = acc.reverse ∧
      (drainLoop st n e acc).2.chains = st.chains := by
  intro k
  induction k with
  | zero =>
    intro st n e acc hk hemp
    rw [drainLoop_exhausted st acc n e (by omega)]
    exact ⟨rfl, rfl⟩
  | succ k ih =>
    intro st n e acc hk hemp
    rcases Nat.eq_zero_or_pos n with hn | hn
    · subst hn
      rw [drainLoop_zero]
      exact ⟨rfl, rfl⟩
    rcases Nat.lt_or_ge e st.chains.length with he | he
    · have hq : subQueue st
          ((st.chains.map Prod.fst).getD (st.roundRobinIdx % st.chains.length) "") = [] := by
        unfold subQueue
        rcases hf : st.chains.find? (fun kv =>
          kv.1 == (st.chains.map Prod.fst).getD (st.roundRobinIdx % st.chains.length) "") with _ | kv
        · rw [hf]
          rfl
        · rw [hf]
          simp [hemp kv (List.mem_of_find?_eq_some hf)]
      rw [drainLoop_skip st acc n e (by omega) he _ rfl hq]
      exact ih ⟨st.chains, (st.roundRobinIdx + 1) % st.chains.length⟩ n (e + 1) acc
        (by simpa using (by omega : st.chains.length - (e + 1) ≤ k)) hemp
    · rw [drainLoop_exhausted st acc n e he]
      exact ⟨rfl, rfl⟩

end Chainpulse

namespace Chainpulse

/-! ## Adaptive whale detector (src/processing/AdaptiveWhaleDetector.ts)

JS numbers here are plain field arithmetic and comparisons, modelled as ℚ.
A detection key is the string `chainId` or `chainId:symbol`; since chain ids
and token symbols never contain a colon, the key is modelled structurally as
a pair `(chainId, Option symbol)`, and the `key.split(':')` in `getThreshold`
becomes the projections.  `Date.now()` is passed in as an explicit `now`
parameter (milliseconds).  The `sorted`/`sortDirty` cache is not modelled:
the cache is invalidated on every write, so recomputing the sorted copy on
demand is observationally equivalent. -/

abbrev DetectionKey := String × Option String

def WINDOW_SIZE : Nat := 200
def COOLDOWN_MS : Int := 3000

/-- Per-key detector state (`ChainState` in the source, minus the sort cache). -/
structure ChainState where
  values : List ℚ
  head : Nat
  fill : Nat
  lastWhaleTime : Int
deriving DecidableEq

def freshChainState : ChainState :=
  { values := List.replicate WINDOW_SIZE 0, head := 0, fill := 0, lastWhaleTime := 0 }

/-- The detector's `Map` of per-key states, as an association list in
insertion order. -/
abbrev DetectorState := List (DetectionKey × ChainState)

/-- External inputs read by the detector: the user USD floor from the store,
the cached price feed, and the token registry's per-token thresholds. -/
structure DetectorEnv where
  whaleThresholdUsd : ℚ
  price : String → Option ℚ
  tokenWhaleThreshold : String → String → Option ℚ

/-- `CHAINS[id]?.whaleThreshold` (src/config/chains.ts). -/
def chainWhaleThreshold : String → Option ℚ
  | "ethereum" => some 5
  | "polygon" => some 25000
  | "arbitrum" => some 5
  | "base" => some 5
  | "optimism" => some 5
  | "avalanche" => some 50
  | "bsc" => some 10
  | _ => none

/-- `CHAINS[id]?.nativeCurrency` (src/config/chains.ts). -/
def chainNativeCurrency : String → Option String
  | "ethereum" => some "ETH"
  | "polygon" => some "MATIC"
  | "arbitrum" => some "ETH"
  | "base" => some "ETH"
  | "optimism" => some "ETH"
  | "avalanche" => some "AVAX"
  | "bsc" => some "BNB"
  | _ => none

def STABLECOIN_SYMBOLS : List String := ["USDT", "USDC", "DAI"]

/-- `this.getState(key)`: look the key up, creating (and appending) a fresh
state when absent, as a JS `Map` would. -/
def getStateIn (st : DetectorState) (k : DetectionKey) : ChainState × DetectorState :=
  match st.find? (fun kv => kv.1 == k) with
  | some kv => (kv.2, st)
  | none => (freshChainState, st ++ [(k, freshChainState)])

/-- Writing the (mutated) state object back: replaces the entry for the key. -/
def setState (st : DetectorState) (k : DetectionKey) (s : ChainState) : DetectorState :=
  st.map (fun kv => if kv.1 == k then (kv.1, s) else kv)

/-- `recordValue`: write into the circular buffer, advance the head, grow the
fill up to the window size. -/
def recordValue (st : DetectorState) (k : DetectionKey) (v : ℚ) : DetectorState :=
  let p := getStateIn st k
  let s := p.1
  setState p.2 k
    { s with
      values := s.values.set s.head v,
      head := (s.head + 1) % WINDOW_SIZE,
      fill := if s.fill < WINDOW_SIZE then s.fill + 1 else s.fill }

/-- Sorting with the comparator `(a, b) => a - b`.  A sorted rearrangement of
a list of numbers is unique, so insertion sort is observationally identical
to `Array.prototype.sort`. -/
def sortAsc (l : List ℚ) : List ℚ := l.insertionSort (fun a b => a ≤ b)

/-- `applyUserFloor`: floor the threshold by the user's USD setting, converted
to asset units via the cached price feed (stablecoins count 1:1). -/
def applyUserFloor (env : DetectorEnv) (threshold : ℚ) (chainId : String)
    (tokenSymbol : Option String) : ℚ :=
  if env.whaleThresholdUsd ≤ 0 then threshold
  else if (tokenSymbol.map (fun s => decide (s ∈ STABLECOIN_SYMBOLS))).getD false then
    max threshold env.whaleThresholdUsd
  else
    match tokenSymbol.or (chainNativeCurrency chainId) with
    | some symbol =>
      match env.price symbol with
      | some p => if 0 < p then max threshold (env.whaleThresholdUsd / p) else threshold
      | none => threshold
    | none => threshold

/-- The static per-asset threshold resolved by `getThreshold` from the key:
token registry for `chainId:symbol` keys, chain config for plain keys, with
default 5. -/
def staticThresholdOf (env : DetectorEnv) (k : DetectionKey) : ℚ :=
  match k.2 with
  | some sym => (env.tokenWhaleThreshold k.1 sym).getD 5
  | none => (chainWhaleThreshold k.1).getD 5

/-- The 95th-percentile value computed by `getThreshold`:
`sorted[min(floor(length*0.95), length-1)]`.  For the window sizes in play
(at most 200) `Math.floor(length * 0.95)` equals `length * 95 / 100` in
integer arithmetic despite `0.95` not being an exact double. -/
def p95OfSamples (l : List ℚ) : ℚ :=
  let sorted := sortAsc l
  sorted.getD (min (sorted.length * 95 / 100) (sorted.length - 1)) 0

/-- The samples currently buffered for a key: the first `fill` cells of the
circular buffer (`values.slice(0, fill)`). -/
def bufferedSamples (st : DetectorState) (k : DetectionKey) : List ℚ :=
  ((st.find? (fun kv => kv.1 == k)).map (fun kv => kv.2.values.take kv.2.fill)).getD []

/-- The buffered sample count for a key (`state.fill`, 0 when absent). -/
def bufferFill (st : DetectorState) (k : DetectionKey) : Nat :=
  ((st.find? (fun kv => kv.1 == k)).map (fun kv => kv.2.fill)).getD 0

/-- `getThreshold(key)`. -/
def getThreshold (env : DetectorEnv) (st : DetectorState) (k : DetectionKey) : ℚ :=
  let staticThreshold := staticThresholdOf env k
  match st.find? (fun kv => kv.1 == k) with
  | none => applyUserFloor env staticThreshold k.1 k.2
  | some kv =>
    if kv.2.fill < 20 then applyUserFloor env staticThreshold k.1 k.2
    else
      let sorted := sortAsc (kv.2.values.take kv.2.fill)
      let p95Index := sorted.length * 95 / 100
      let p95Value := sorted.getD (min p95Index (sorted.length - 1)) 0
      applyUserFloor env (max staticThreshold (p95Value * 2)) k.1 k.2

/-- The recorded last-trigger timestamp for a key (0 when absent). -/
def lastTrigger (st : DetectorState) (k : DetectionKey) : Int :=
  ((st.find? (fun kv => kv.1 == k)).map (fun kv => kv.2.lastWhaleTime)).getD 0

/-- `isWhale(key, value)` of the adaptive detector: cooldown doubling plus
trigger-timestamp recording.  Returns the flag and the mutated state. -/
def detectorIsWhale (env : DetectorEnv) (st : DetectorState) (k : DetectionKey)
    (v : ℚ) (now : Int) : Bool × DetectorState :=
  let p := getStateIn st k
  let s := p.1
  let st1 := p.2
  if now - s.lastWhaleTime < COOLDOWN_MS then
    let threshold := getThreshold env st1 k * 2
    if threshold ≤ v then (true, setState st1 k { s with lastWhaleTime := now })
    else (false, st1)
  else
    let threshold := getThreshold env st1 k
    if threshold ≤ v then (true, setState st1 k { s with lastWhaleTime := now })
    else (false, st1)

/-! ## Static whale check and the classifier's whale path
(src/processing/WhaleDetector.ts and mapTransaction) -/

/-- Token-transfer sub-record of a raw transaction (fields used by the whale
classification; the display color is irrelevant here). -/
structure TokenTransfer where
  rawValue : Int
  decimals : Nat
  symbol : String
  isStablecoin : Bool

/-- A raw transaction, restricted to the fields the whale classification
reads (`hash`, `gasPrice`, etc. only feed the visual descriptor). -/
structure RawTransaction where
  chainId : String
  value : Int
  tokenTransfer : Option TokenTransfer

/-- `isWhale` of src/processing/WhaleDetector.ts: static per-chain threshold
on the native value; unknown chains are never whales. -/
def staticIsWhale (raw : RawTransaction) : Bool :=
  match chainWhaleThreshold raw.chainId with
  | none => false
  | some thr => decide (thr ≤ (raw.value : ℚ) / 10 ^ 18)

/-- The detection key `mapTransaction` computes:
`chainId:symbol` for token transfers, `chainId` for native transfers. -/
def txDetectionKey (raw : RawTransaction) : DetectionKey :=
  match raw.tokenTransfer with
  | some tt => (raw.chainId, some tt.symbol)
  | none => (raw.chainId, none)

/-- The human-unit value `mapTransaction` computes:
`rawValue / 10^decimals` for token transfers, `value / 1e18` for native. -/
def txValueInToken (raw : RawTransaction) : ℚ :=
  match raw.tokenTransfer with
  | some tt => (tt.rawValue : ℚ) / 10 ^ tt.decimals
  | none => (raw.value : ℚ) / 10 ^ 18

/-- The whale-classification path of `mapTransaction`: record the value for
the detection key, then decide whale status — through the adaptive detector
for token transfers, through the static `isWhale` for native transfers.
(The visual size/intensity/heat/color outputs involve `log`/`pow` and are
not read by any whale decision; they are outside this embedded fragment.) -/
def classifyWhale (env : DetectorEnv) (st : DetectorState) (raw : RawTransaction)
    (now : Int) : Bool × DetectorState :=
  let v := txValueInToken raw
  let k := txDetectionKey raw
  let st1 := recordValue st k v
  match raw.tokenTransfer with
  | some _ => detectorIsWhale env st1 k v now
  | none => (staticIsWhale raw, st1)

/-- Convenience: record a list of samples in order. -/
def recordAll (st : DetectorState) (k : DetectionKey) (vs : List ℚ) : DetectorState :=
  vs.foldl (fun s v => recordValue s k v) st

end Chainpulse

namespace Chainpulse

/-! ### Detector lemmas -/

lemma getStateIn_found {st : DetectorState} {k : DetectionKey} {kv : DetectionKey × ChainState}
    (h : st.find? (fun kv => kv.1 == k) = some kv) :
    getStateIn st k = (kv.2, st) := by
  unfold getStateIn
  rw [h]

lemma getStateIn_absent {st : DetectorState} {k : DetectionKey}
    (h : st.find? (fun kv => kv.1 == k) = none) :
    getStateIn st k = (freshChainState, st ++ [(k, freshChainState)]) := by
  unfold getStateIn
  rw [h]

lemma setState_find? (st : DetectorState) (k k' : DetectionKey) (s : ChainState) :
    (setState st k s).find? (fun kv => kv.1 == k') =
      (st.find? (fun kv => kv.1 == k')).map (fun kv => if kv.1 == k then (kv.1, s) else kv) := by
  unfold setState
  have hpred : ((fun kv : DetectionKey × ChainState => kv.1 == k') ∘
      fun kv => if kv.1 == k then (kv.1, s) else kv) =
      (fun kv : DetectionKey × ChainState => kv.1 == k') := by
    funext kv
    simp only [Function.comp]
    split <;> rfl
  rw [List.find?_map, hpred]

lemma find?_append_single (st : DetectorState) (k k' : DetectionKey) (s : ChainState) :
    (st ++ [(k, s)]).find? (fun kv => kv.1 == k') =
      (st.find? (fun kv => kv.1 == k')).or (if k == k' then some (k, s) else none) := by
  rw [List.find?_append]
  congr 1
  by_cases h : (k == k') = true
  · rw [List.find?_cons_of_pos _ (by simpa using h), if_pos h]
  · rw [List.find?_cons_of_neg _ (by simpa using h), if_neg h]
    rfl

lemma lastTrigger_getStateIn (st : DetectorState) (k : DetectionKey) :
    (getStateIn st k).1.lastWhaleTime = lastTrigger st k ∧
    lastTrigger (getStateIn st k).2 k = lastTrigger st k := by
  rcases h : st.find? (fun kv => kv.1 == k) with _ | kv
  · rw [getStateIn_absent h]
    constructor
    · simp [freshChainState, lastTrigger, h]
    · simp [lastTrigger, find?_append_single, h, freshChainState]
  · rw [getStateIn_found h]
    simp [lastTrigger, h]

lemma getThreshold_getStateIn (env : DetectorEnv) (st : DetectorState) (k : DetectionKey) :
    getThreshold env (getStateIn st k).2 k = getThreshold env st k := by
  rcases h : st.find? (fun kv => kv.1 == k) with _ | kv
  · rw [getStateIn_absent h]
    unfold getThreshold
    rw [h, find?_append_single, h]
    simp [freshChainState]
  · rw [getStateIn_found h]

lemma lastTrigger_setState (st : DetectorState) (k : DetectionKey) (s : ChainState)
    (h : (st.find? (fun kv => kv.1 == k)).isSome) :
    lastTrigger (setState st k s) k = s.lastWhaleTime := by
  unfold lastTrigger
  rw [setState_find?]
  rcases hf : st.find? (fun kv => kv.1 == k) with _ | kv
  · rw [hf] at h
    simp at h
  · have hbeq : (kv.1 == k) = true := List.find?_some (p := fun kv : DetectionKey × ChainState => kv.1 == k) hf
    rw [hf]
    simp [beq_iff_eq.mp hbeq]

lemma getStateIn_isSome (st : DetectorState) (k : DetectionKey) :
    (((getStateIn st k).2).find? (fun kv => kv.1 == k)).isSome := by
  rcases h : st.find? (fun kv => kv.1 == k) with _ | kv
  · rw [getStateIn_absent h, find?_append_single, h]
    simp
  · rw [getStateIn_found h, h]
    rfl

/-- `getThreshold` as the specification states it: the statically configured
per-asset threshold while cold (fewer than 20 buffered samples), and the
greater of it and twice the 95th-percentile of the buffered samples once
warm, in both cases floored by the user's USD setting. -/
lemma getThreshold_spec (env : DetectorEnv) (st : DetectorState) (k : DetectionKey) :
    getThreshold env st k =
      if bufferFill st k < 20 then
        applyUserFloor env (staticThresholdOf env k) k.1 k.2
      else
        applyUserFloor env
          (max (staticThresholdOf env k) (p95OfSamples (bufferedSamples st k) * 2)) k.1 k.2 := by
  unfold getThreshold bufferFill bufferedSamples p95OfSamples
  rcases h : st.find? (fun kv => kv.1 == k) with _ | kv
  · rw [h]
    simp
  · rw [h]
    simp only [Option.map_some', Option.getD_some]

end Chainpulse

namespace Chainpulse

lemma applyUserFloor_nonpos {env : DetectorEnv} (h : env.whaleThresholdUsd ≤ 0)
    (t : ℚ) (c : String) (s : Option String) :
    applyUserFloor env t c s = t := by
  unfold applyUserFloor
  rw [if_pos h]

/-- `isWhale` of the adaptive detector, characterised: within the 3000 ms
cooldown window the value must clear twice the threshold, otherwise once;
the key's last-trigger timestamp becomes `now` exactly on a fire. -/
lemma detectorIsWhale_spec (env : DetectorEnv) (st : DetectorState) (k : DetectionKey)
    (v : ℚ) (now : Int) :
    (detectorIsWhale env st k v now).1 =
      (if now - lastTrigger st k < COOLDOWN_MS then decide (getThreshold env st k * 2 ≤ v)
       else decide (getThreshold env st k ≤ v)) ∧
    lastTrigger (detectorIsWhale env st k v now).2 k =
      (if (detectorIsWhale env st k v now).1 then now else lastTrigger st k) := by
  have hlt := lastTrigger_getStateIn st k
  have hth := getThreshold_getStateIn env st k
  have hsome := getStateIn_isSome st k
  simp only [detectorIsWhale]
  rw [hlt.1, hth]
  by_cases hcd : now - lastTrigger st k < COOLDOWN_MS
  · rw [if_pos hcd, if_pos hcd]
    by_cases hv : getThreshold env st k * 2 ≤ v
    · rw [if_pos hv]
      simp only [decide_eq_true hv, if_pos rfl]
      exact ⟨trivial, by rw [lastTrigger_setState _ _ _ hsome]; simp⟩
    · rw [if_neg hv]
      simp only [decide_eq_false hv]
      exact ⟨trivial, by simp [hlt.2]⟩
  · rw [if_neg hcd, if_neg hcd]
    by_cases hv : getThreshold env st k ≤ v
    · rw [if_pos hv]
      simp only [decide_eq_true hv, if_pos rfl]
      exact ⟨trivial, by rw [lastTrigger_setState _ _ _ hsome]; simp⟩
    · rw [if_neg hv]
      simp only [decide_eq_false hv]
      exact ⟨trivial, by simp [hlt.2]⟩

lemma classifyWhale_native (env : DetectorEnv) (st : DetectorState)
    (raw : RawTransaction) (now : Int) (h : raw.tokenTransfer = none) :
    classifyWhale env st raw now =
      (staticIsWhale raw, recordValue st (txDetectionKey raw) (txValueInToken raw)) := by
  unfold classifyWhale
  rw [h]

lemma classifyWhale_token (env : DetectorEnv) (st : DetectorState)
    (raw : RawTransaction) (tt : TokenTransfer) (now : Int)
    (h : raw.tokenTransfer = some tt) :
    classifyWhale env st raw now =
      detectorIsWhale env (recordValue st (txDetectionKey raw) (txValueInToken raw))
        (txDetectionKey raw) (txValueInToken raw) now := by
  unfold classifyWhale
  rw [h]

end Chainpulse

namespace Chainpulse

/-- Order statistic of a sorted list via counting: if at most `i` elements
are `< x` and more than `i` are `≤ x`, the element at index `i` is `x`. -/
lemma sorted_getElem_of_counts (S : List ℚ) (x : ℚ) (i : Nat)
    (hs : S.Sorted (fun a b => a ≤ b)) (hi : i < S.length)
    (h1 : S.countP (fun a => decide (a < x)) ≤ i)
    (h2 : i < S.countP (fun a => decide (a ≤ x))) :
    S[i] = x := by
  have hmono : ∀ (j1 j2 : Nat) (hj1 : j1 < S.length) (hj2 : j2 < S.length),
      j1 ≤ j2 → S[j1] ≤ S[j2] := by
    intro j1 j2 hj1 hj2 hle
    exact hs.rel_get_of_le (a := ⟨j1, hj1⟩) (b := ⟨j2, hj2⟩) hle
  have hge : x ≤ S[i] := by
    by_contra hlt
    push_neg at hlt
    have hall : ∀ a ∈ S.take (i + 1), (fun a => decide (a < x)) a = true := by
      intro a ha
      obtain ⟨j, hj, hja⟩ := List.mem_iff_getElem.mp ha
      rw [List.getElem_take] at hja
      have hjlen : j < S.length := lt_of_lt_of_le (by
        have := hj
        rw [List.length_take] at this
        omega) (le_refl _)
      subst hja
      have : S[j] ≤ S[i] := hmono j i hjlen hi (by
        have := hj
        rw [List.length_take] at this
        omega)
      simpa using lt_of_le_of_lt this hlt
    have hcount : (S.take (i + 1)).countP (fun a => decide (a < x)) = (S.take (i + 1)).length :=
      List.countP_eq_length.mpr hall
    have hlen : (S.take (i + 1)).length = i + 1 := by
      rw [List.length_take]
      omega
    have : i + 1 ≤ S.countP (fun a => decide (a < x)) := by
      conv_rhs => rw [← List.take_append_drop (i + 1) S]
      rw [List.countP_append, hcount, hlen]
      omega
    omega
  have hle : S[i] ≤ x := by
    by_contra hlt
    push_neg at hlt
    have hall : ∀ a ∈ S.drop i, ¬ (fun a => decide (a ≤ x)) a = true := by
      intro a ha
      obtain ⟨j, hj, hja⟩ := List.mem_iff_getElem.mp ha
      rw [List.getElem_drop] at hja
      have hjlen : i + j < S.length := by
        have := hj
        rw [List.length_drop] at this
        omega
      subst hja
      have : S[i] ≤ S[i + j] := hmono i (i + j) hi hjlen (by omega)
      simp only [decide_eq_true_eq]
      push_neg
      exact lt_of_lt_of_le hlt this
    have hcount : (S.drop i).countP (fun a => decide (a ≤ x)) = 0 :=
      List.countP_eq_zero.mpr hall
    have : S.countP (fun a => decide (a ≤ x)) ≤ i := by
      conv_lhs => rw [← List.take_append_drop i S]
      rw [List.countP_append, hcount]
      have := List.countP_le_length (fun a => decide (a ≤ x)) (l := S.take i)
      rw [List.length_take] at this
      omega
    omega
  exact le_antisymm hle hge

/-- The code's 95th-percentile selection, characterised by counting: with `n`
buffered samples, at most `min (n*95/100) (n-1)` of them below `x` and more
than that many at or below `x`, the percentile value is `x`. -/
lemma p95OfSamples_eq_of_counts (l : List ℚ) (x : ℚ) (i : Nat)
    (hidx : min (l.length * 95 / 100) (l.length - 1) = i)
    (hne : l ≠ [])
    (h1 : l.countP (fun a => decide (a < x)) ≤ i)
    (h2 : i < l.countP (fun a => decide (a ≤ x))) :
    p95OfSamples l = x := by
  unfold p95OfSamples sortAsc
  have hperm := List.perm_insertionSort (fun a b : ℚ => a ≤ b) l
  have hlen : (l.insertionSort (fun a b => a ≤ b)).length = l.length := hperm.length_eq
  have hsorted : (l.insertionSort (fun a b => a ≤ b)).Sorted (fun a b : ℚ => a ≤ b) :=
    List.sorted_insertionSort _ l
  have hil : i < l.length := by
    have : 0 < l.length := List.length_pos.mpr hne
    omega
  rw [List.getD_eq_getElem _ _ (by rw [hlen]; omega)]
  have hgoal := sorted_getElem_of_counts (l.insertionSort (fun a b => a ≤ b)) x i hsorted
    (by rw [hlen]; exact hil)
    (by rw [hperm.countP_eq]; exact h1)
    (by rw [hperm.countP_eq]; exact h2)
  rw [← hgoal]
  congr 1
  rw [hlen, hidx]

end Chainpulse

namespace Chainpulse

lemma recordValue_single (k : DetectionKey) (s : ChainState) (v : ℚ) :
    recordValue [(k, s)] k v =
      [(k, ⟨s.values.set s.head v, (s.head + 1) % WINDOW_SIZE,
        if s.fill < WINDOW_SIZE then s.fill + 1 else s.fill, s.lastWhaleTime⟩)] := by
  simp [recordValue, getStateIn, setState, List.find?]

lemma bufferedSamples_single (k : DetectionKey) (s : ChainState) :
    bufferedSamples [(k, s)] k = s.values.take s.fill := by
  simp [bufferedSamples, List.find?]

lemma bufferFill_single (k : DetectionKey) (s : ChainState) :
    bufferFill [(k, s)] k = s.fill := by
  simp [bufferFill, List.find?]

lemma lastTrigger_single (k : DetectionKey) (s : ChainState) :
    lastTrigger [(k, s)] k = s.lastWhaleTime := by
  simp [lastTrigger, List.find?]

end Chainpulse

namespace Chainpulse

/-! ## Particle pool lifecycle engine (the ParticlePool source file)

Float arithmetic here involves `exp`, `log` and `sqrt`, so it is modelled
over ℝ (noncomputable).  `Math.pow(x, 3.0)` and `Math.pow(x, 2.0)` have
integral exponents and equal `x^3` / `x^2` on all reals, so they are modelled
as monomials.  Two copies of the whale visual config exist in the repository
with different glow rise/fall times; the config is therefore a parameter
structure rather than fixed constants (the attraction constants agree in
both copies). -/

def TRAIL_LENGTH : Nat := 8

namespace LIFECYCLE

noncomputable def velocityDampingRate : ℝ := 0.05
noncomputable def spawnDuration : ℝ := 0.4
noncomputable def spawnEaseExponent : ℝ := 3.0
noncomputable def initialEnergy : ℝ := 1.0
noncomputable def energyHalfLife : ℝ := 1.8
noncomputable def opacityHalfLife : ℝ := 2.5
noncomputable def opacityFadeStart : ℝ := 0.55
noncomputable def sizeShrinkExponent : ℝ := 2.0
noncomputable def sizeFadeStart : ℝ := 0.6
noncomputable def minOpacity : ℝ := 0.008
noncomputable def minEnergy : ℝ := 0.01
noncomputable def minSize : ℝ := 0.01
noncomputable def trailSampleInterval : ℝ := 0.06

end LIFECYCLE

/-- `WHALE_CONFIG` (fields read by the pool update). -/
structure WhaleCfg where
  glowRiseTime : ℝ
  glowFallTime : ℝ
  attractionRadius : ℝ
  attractionStrength : ℝ
  swirlFactor : ℝ
  spawnEaseDuration : ℝ
  maxSimultaneousWhales : Nat

/-- The mutable per-slot record.  `from`/`to` of the source are renamed
`fromAddr`/`toAddr` (`from` is reserved in Lean). -/
structure ParticleData where
  active : Bool
  x : ℝ
  y : ℝ
  z : ℝ
  vx : ℝ
  vy : ℝ
  vz : ℝ
  size : ℝ
  targetSize : ℝ
  opacity : ℝ
  energy : ℝ
  r : ℝ
  g : ℝ
  b : ℝ
  age : ℝ
  maxAge : ℝ
  isWhale : Bool
  chainId : String
  dampingMult : ℝ
  energyHalfLifeMult : ℝ
  whaleGlowIntensity : ℝ
  whaleValue : ℝ
  trailX : List ℝ
  trailY : List ℝ
  trailZ : List ℝ
  trailHead : Nat
  trailFill : Nat
  trailTimer : ℝ
  hash : String
  fromAddr : String
  toAddr : Option String
  value : ℝ
  gasPrice : ℝ
  timestamp : ℝ
  tokenSymbol : String

/-- `createEmpty()`. -/
noncomputable def createEmpty : ParticleData :=
  { active := false
    x := 0, y := 0, z := 0
    vx := 0, vy := 0, vz := 0
    size := 0, targetSize := 0
    opacity := 0
    energy := 0
    r := 1, g := 1, b := 1
    age := 0, maxAge := 1
    isWhale := false
    chainId := ""
    dampingMult := 1
    energyHalfLifeMult := 1
    whaleGlowIntensity := 0
    whaleValue := 0
    trailX := List.replicate TRAIL_LENGTH 0
    trailY := List.replicate TRAIL_LENGTH 0
    trailZ := List.replicate TRAIL_LENGTH 0
    trailHead := 0
    trailFill := 0
    trailTimer := 0
    hash := "", fromAddr := "", toAddr := none
    value := 0, gasPrice := 0, timestamp := 0
    tokenSymbol := "" }

structure SpawnConfig where
  x : ℝ
  y : ℝ
  z : ℝ
  vx : ℝ
  vy : ℝ
  vz : ℝ
  size : ℝ
  r : ℝ
  g : ℝ
  b : ℝ
  maxAge : ℝ
  isWhale : Bool
  chainId : String
  dampingMult : ℝ
  energyHalfLifeMult : ℝ
  hash : String
  fromAddr : String
  toAddr : Option String
  value : ℝ
  whaleValue : ℝ
  gasPrice : ℝ
  timestamp : ℝ
  tokenSymbol : String

/-- The pool: a fixed array of slots plus the running active count.  The
constructor guarantees `particles.length = capacity`; the `for i < capacity`
loops of the source are modelled as traversals of the slot list. -/
structure Pool where
  particles : List ParticleData
  activeCount : Nat

noncomputable def mkPool (capacity : Nat) : Pool :=
  { particles := List.replicate capacity createEmpty, activeCount := 0 }

/-- The eviction scan of `spawn`: track the highest `age/maxAge` ratio over
the slots, skipping whales unless the incoming spawn is a whale.  The source
initialises `maxRatio = -1` and `idx = -1`; the `-1` index sentinel is an
`Option`. -/
noncomputable def evictScan (cfgIsWhale : Bool) :
    List ParticleData → Nat → ℝ × Option Nat → ℝ × Option Nat
  | [], _, acc => acc
  | p :: rest, i, (maxRatio, idx) =>
    if p.isWhale && !cfgIsWhale then evictScan cfgIsWhale rest (i + 1) (maxRatio, idx)
    else
      let ratio := p.age / p.maxAge
      if maxRatio < ratio then evictScan cfgIsWhale rest (i + 1) (ratio, some i)
      else evictScan cfgIsWhale rest (i + 1) (maxRatio, idx)

/-- Every field of the chosen slot is overwritten at spawn; the fresh slot
contents depend only on the config. -/
noncomputable def spawnedParticle (config : SpawnConfig) : ParticleData :=
  { active := true
    x := config.x, y := config.y, z := config.z
    vx := config.vx, vy := config.vy, vz := config.vz
    targetSize := config.size
    size := 0
    r := config.r, g := config.g, b := config.b
    opacity := 0
    energy := LIFECYCLE.initialEnergy
    age := 0
    maxAge := config.maxAge
    isWhale := config.isWhale
    chainId := config.chainId
    dampingMult := config.dampingMult
    energyHalfLifeMult := config.energyHalfLifeMult
    whaleGlowIntensity := 0
    whaleValue := config.whaleValue
    hash := config.hash
    fromAddr := config.fromAddr
    toAddr := config.toAddr
    value := config.value
    gasPrice := config.gasPrice
    timestamp := config.timestamp
    tokenSymbol := config.tokenSymbol
    trailX := List.replicate TRAIL_LENGTH config.x
    trailY := List.replicate TRAIL_LENGTH config.y
    trailZ := List.replicate TRAIL_LENGTH config.z
    trailHead := 0
    trailFill := 0
    trailTimer := 0 }

/-- `ParticlePool.spawn`: first-fit over inactive slots, else evict the most
expired non-protected slot, else force slot 0; returns the slot index and the
updated pool. -/
noncomputable def Pool.spawn (pool : Pool) (config : SpawnConfig) : Nat × Pool :=
  let firstFree := pool.particles.findIdx (fun p => !p.active)
  let idx :=
    if firstFree < pool.particles.length then firstFree
    else
      match (evictScan config.isWhale pool.particles 0 (-1, none)).2 with
      | some j => j
      | none => 0
  (idx, { pool with particles := pool.particles.set idx (spawnedParticle config) })

end Chainpulse

namespace Chainpulse

open Classical in
/-- One slot's pass through the main `update(dt)` loop (age advance, death
checks, trail sampling, integration, damping, envelopes, energy decay).
The whale-collection side effect is captured separately by
`collectedWhale`. -/
noncomputable def stepParticle (wc : WhaleCfg) (dt : ℝ) (p : ParticleData) : ParticleData :=
  if !p.active then p
  else
    let age := p.age + dt
    let life := age / p.maxAge
    if age ≥ p.maxAge then { p with age := age, active := false }
    else
      let trailTimer0 := p.trailTimer + dt
      let sample := trailTimer0 ≥ LIFECYCLE.trailSampleInterval
      let trailTimer := if sample then 0 else trailTimer0
      let trailX := if sample then p.trailX.set p.trailHead p.x else p.trailX
      let trailY := if sample then p.trailY.set p.trailHead p.y else p.trailY
      let trailZ := if sample then p.trailZ.set p.trailHead p.z else p.trailZ
      let trailHead := if sample then (p.trailHead + 1) % TRAIL_LENGTH else p.trailHead
      let trailFill :=
        if sample then (if p.trailFill < TRAIL_LENGTH then p.trailFill + 1 else p.trailFill)
        else p.trailFill
      let x := p.x + p.vx * dt
      let y := p.y + p.vy * dt
      let z := p.z + p.vz * dt
      let velDamp := Real.exp (Real.log LIFECYCLE.velocityDampingRate * p.dampingMult * dt)
      let vx := p.vx * velDamp
      let vy := p.vy * velDamp
      let vz := p.vz * velDamp
      let spawnT := min (age / LIFECYCLE.spawnDuration) 1
      let spawnEnv := 1 - (1 - spawnT) ^ 3
      let energyDecay :=
        Real.exp (-dt * (Real.log 2 / LIFECYCLE.energyHalfLife) / p.energyHalfLifeMult)
      let energy := p.energy * energyDecay
      if p.isWhale then
        let whaleSpawnT := min (age / wc.spawnEaseDuration) 1
        let whaleSpawnEase := 1 - (1 - whaleSpawnT) ^ 3
        let timeLeft := p.maxAge - age
        let decayT := if timeLeft < wc.glowFallTime then timeLeft / wc.glowFallTime else 1
        let decayEase := decayT * decayT * decayT
        let riseT := min (age / wc.glowRiseTime) 1
        let riseEase := 1 - (1 - riseT) ^ 3
        let size := p.targetSize * whaleSpawnEase * decayEase
        let opacity := whaleSpawnEase * decayEase
        let dead := opacity < LIFECYCLE.minOpacity ∨ energy < LIFECYCLE.minEnergy ∨
          size < LIFECYCLE.minSize
        { p with
          age := age, trailTimer := trailTimer,
          trailX := trailX, trailY := trailY, trailZ := trailZ,
          trailHead := trailHead, trailFill := trailFill,
          x := x, y := y, z := z, vx := vx, vy := vy, vz := vz,
          whaleGlowIntensity := riseEase * decayEase,
          energy := energy, size := size, opacity := opacity,
          active := !decide dead }
      else
        let size :=
          if life < LIFECYCLE.sizeFadeStart then p.targetSize * spawnEnv
          else
            let shrinkProgress := (life - LIFECYCLE.sizeFadeStart) / (1 - LIFECYCLE.sizeFadeStart)
            let shrinkFactor := 1 - shrinkProgress ^ 2
            p.targetSize * shrinkFactor
        let opacity0 :=
          if life < LIFECYCLE.opacityFadeStart then spawnEnv
          else
            let fadeProgress := (life - LIFECYCLE.opacityFadeStart) / (1 - LIFECYCLE.opacityFadeStart)
            let smoothFade := fadeProgress * fadeProgress * (3 - 2 * fadeProgress)
            spawnEnv * (1 - smoothFade) + (spawnEnv * energy) * smoothFade
        let opacity := opacity0 * (0.3 + 0.7 * energy)
        let dead := opacity < LIFECYCLE.minOpacity ∨ energy < LIFECYCLE.minEnergy ∨
          size < LIFECYCLE.minSize
        { p with
          age := age, trailTimer := trailTimer,
          trailX := trailX, trailY := trailY, trailZ := trailZ,
          trailHead := trailHead, trailFill := trailFill,
          x := x, y := y, z := z, vx := vx, vy := vy, vz := vz,
          energy := energy, size := size, opacity := opacity,
          active := !decide dead }

/-- The condition under which the first loop pushes a slot into the `whales`
collection: it entered the tick active, survived the age check and is a
whale.  (A whale that early-dies in the same tick has already been pushed by
reference and still participates in the attraction pass.) -/
def collectedWhale (dt : ℝ) (p : ParticleData) : Prop :=
  p.active = true ∧ p.age + dt < p.maxAge ∧ p.isWhale = true

open Classical in
/-- The `whales` array at the end of the first loop: the post-step states of
the collected whale slots, in slot order, capped at
`maxSimultaneousWhales`. -/
noncomputable def collectWhales (wc : WhaleCfg) (dt : ℝ) (pool : Pool) : List ParticleData :=
  ((pool.particles.filter (fun p => decide (collectedWhale dt p))).map
    (stepParticle wc dt)).take wc.maxSimultaneousWhales

open Classical in
/-- One whale's contribution in the gravitational/swirl pass: a smoothstep
falloff with inverse-square damping, split into radial and tangential
(cross-with-up) components, added to the velocity scaled by `dt`. -/
noncomputable def applyWhaleForce (wc : WhaleCfg) (dt : ℝ) (w p : ParticleData) :
    ParticleData :=
  let dx := w.x - p.x
  let dy := w.y - p.y
  let dz := w.z - p.z
  let distSq := dx * dx + dy * dy + dz * dz
  if distSq > wc.attractionRadius * wc.attractionRadius ∨ distSq < 0.01 then p
  else
    let dist := Real.sqrt distSq
    let normDist := dist / wc.attractionRadius
    let edge := 1 - normDist * normDist * (3 - 2 * normDist)
    let forceMag := wc.attractionStrength * edge * w.whaleGlowIntensity / (1 + distSq)
    let nx := dx / dist
    let ny := dy / dist
    let nz := dz / dist
    let tx0 := ny
    let ty0 := -nx
    let tLen := Real.sqrt (tx0 * tx0 + ty0 * ty0)
    let tx := if tLen > 0.001 then tx0 / tLen else tx0
    let ty := if tLen > 0.001 then ty0 / tLen else ty0
    let tz := (0 : ℝ)
    let radial := forceMag * (1 - wc.swirlFactor)
    let tangential := forceMag * wc.swirlFactor
    { p with
      vx := p.vx + (nx * radial + tx * tangential) * dt,
      vy := p.vy + (ny * radial + ty * tangential) * dt,
      vz := p.vz + (nz * radial + tz * tangential) * dt }

/-- The gravitational pass over one slot: skipped entirely when no whales
were collected, when the slot is inactive, or when it is itself a whale;
otherwise every collected whale's force is accumulated into the velocity. -/
noncomputable def attractionPass (wc : WhaleCfg) (dt : ℝ) (whales : List ParticleData)
    (p : ParticleData) : ParticleData :=
  if whales.isEmpty then p
  else if !p.active || p.isWhale then p
  else whales.foldl (fun q w => applyWhaleForce wc dt w q) p

/-- `ParticlePool.update(dt)`: the per-slot lifecycle loop (which also counts
survivors into `activeCount` and collects up to six whales), then the
gravitational attraction pass over the collected whales. -/
noncomputable def Pool.update (wc : WhaleCfg) (dt : ℝ) (pool : Pool) : Pool :=
  let stepped := pool.particles.map (stepParticle wc dt)
  let whales := collectWhales wc dt pool
  { particles := stepped.map (attractionPass wc dt whales),
    activeCount := stepped.countP (fun p => p.active) }

/-- `clear()`. -/
noncomputable def Pool.clearPool (pool : Pool) : Pool :=
  { particles := pool.particles.map (fun p => { p with active := false }), activeCount := 0 }

/-- A client-visible pool operation, for stating whole-trace invariants. -/
inductive PoolOp where
  | spawnOp (config : SpawnConfig)
  | updateOp (wc : WhaleCfg) (dt : ℝ)

noncomputable def runOps (pool : Pool) : List PoolOp → Pool
  | [] => pool
  | PoolOp.spawnOp c :: rest => runOps (pool.spawn c).2 rest
  | PoolOp.updateOp wc dt :: rest => runOps (Pool.update wc dt pool) rest

end Chainpulse

namespace Chainpulse

/-! ### Pool lemmas -/

/-- The energy field after one lifecycle step: untouched for inactive or
age-expired slots, multiplied by the exponential decay factor otherwise
(whales and normal particles alike). -/
lemma stepParticle_energy (wc : WhaleCfg) (dt : ℝ) (p : ParticleData) :
    (stepParticle wc dt p).energy =
      if p.active = true ∧ p.age + dt < p.maxAge then
        p.energy * Real.exp (-dt * (Real.log 2 / LIFECYCLE.energyHalfLife) / p.energyHalfLifeMult)
      else p.energy := by
  rcases hact : p.active with _ | _
  · simp [stepParticle, hact]
  · simp only [stepParticle, hact, Bool.not_true]
    rw [if_neg (show ¬ (false = true) by simp)]
    by_cases hage : p.age + dt ≥ p.maxAge
    · rw [if_pos hage, if_neg (by rintro ⟨_, hlt⟩; linarith)]
    · rw [if_neg hage, if_pos (⟨trivial, lt_of_not_ge hage⟩ : True ∧ p.age + dt < p.maxAge)]
      by_cases hw : p.isWhale = true
      · rw [if_pos hw]
      · rw [if_neg hw]

end Chainpulse

namespace Chainpulse

/-- The force application touches only the velocity components. -/
lemma applyWhaleForce_only_velocity (wc : WhaleCfg) (dt : ℝ) (w p : ParticleData) :
    ∃ a b c, applyWhaleForce wc dt w p = { p with vx := a, vy := b, vz := c } := by
  simp only [applyWhaleForce]
  split
  · exact ⟨p.vx, p.vy, p.vz, rfl⟩
  · exact ⟨_, _, _, rfl⟩

/-- Out-of-shell (or minimum-distance-guarded) whales contribute nothing. -/
lemma applyWhaleForce_skip (wc : WhaleCfg) (dt : ℝ) (w p : ParticleData)
    (h : (w.x - p.x) * (w.x - p.x) + (w.y - p.y) * (w.y - p.y) + (w.z - p.z) * (w.z - p.z) >
        wc.attractionRadius * wc.attractionRadius ∨
      (w.x - p.x) * (w.x - p.x) + (w.y - p.y) * (w.y - p.y) + (w.z - p.z) * (w.z - p.z) < 0.01) :
    applyWhaleForce wc dt w p = p := by
  simp only [applyWhaleForce]
  rw [if_pos h]

/-- The whole attraction pass touches only the velocity components of a slot. -/
lemma attractionPass_only_velocity (wc : WhaleCfg) (dt : ℝ) (whales : List ParticleData)
    (p : ParticleData) :
    ∃ a b c, attractionPass wc dt whales p = { p with vx := a, vy := b, vz := c } := by
  unfold attractionPass
  split
  · exact ⟨p.vx, p.vy, p.vz, rfl⟩
  split
  · exact ⟨p.vx, p.vy, p.vz, rfl⟩
  · clear * - whales
    induction whales generalizing p with
    | nil => exact ⟨p.vx, p.vy, p.vz, rfl⟩
    | cons w ws ih =>
      rw [List.foldl_cons]
      obtain ⟨a, b, c, hw⟩ := applyWhaleForce_only_velocity wc dt w p
      obtain ⟨a', b', c', hws⟩ := ih ({ p with vx := a, vy := b, vz := c })
      rw [hw, hws]
      exact ⟨a', b', c', rfl⟩

/-- Whale slots are never touched by the attraction pass. -/
lemma attractionPass_whale (wc : WhaleCfg) (dt : ℝ) (whales : List ParticleData)
    (p : ParticleData) (h : p.isWhale = true) :
    attractionPass wc dt whales p = p := by
  unfold attractionPass
  split
  · rfl
  · rw [if_pos (by simp [h])]

/-- Inactive slots are never touched by the attraction pass. -/
lemma attractionPass_inactive (wc : WhaleCfg) (dt : ℝ) (whales : List ParticleData)
    (p : ParticleData) (h : p.active = false) :
    attractionPass wc dt whales p = p := by
  unfold attractionPass
  split
  · rfl
  · rw [if_pos (by simp [h])]

/-- A slot with no collected whale inside its attraction shell keeps its
velocity (and hence is completely unchanged by the pass). -/
lemma foldl_applyWhaleForce_skip (wc : WhaleCfg) (dt : ℝ) (p : ParticleData) :
    ∀ whales : List ParticleData,
      (∀ w ∈ whales,
        (w.x - p.x) * (w.x - p.x) + (w.y - p.y) * (w.y - p.y) + (w.z - p.z) * (w.z - p.z) >
            wc.attractionRadius * wc.attractionRadius ∨
          (w.x - p.x) * (w.x - p.x) + (w.y - p.y) * (w.y - p.y) + (w.z - p.z) * (w.z - p.z) < 0.01) →
      whales.foldl (fun q w => applyWhaleForce wc dt w q) p = p := by
  intro whales
  induction whales with
  | nil => intro _; rfl
  | cons w ws ih =>
    intro h
    rw [List.foldl_cons, applyWhaleForce_skip wc dt w p (h w (by simp))]
    exact ih (fun w' hw' => h w' (by simp [hw']))

/-- A slot with no collected whale inside its attraction shell keeps its
velocity (and hence is completely unchanged by the pass). -/
lemma attractionPass_out_of_range (wc : WhaleCfg) (dt : ℝ) (whales : List ParticleData)
    (p : ParticleData)
    (h : ∀ w ∈ whales,
      (w.x - p.x) * (w.x - p.x) + (w.y - p.y) * (w.y - p.y) + (w.z - p.z) * (w.z - p.z) >
          wc.attractionRadius * wc.attractionRadius ∨
        (w.x - p.x) * (w.x - p.x) + (w.y - p.y) * (w.y - p.y) + (w.z - p.z) * (w.z - p.z) < 0.01) :
    attractionPass wc dt whales p = p := by
  unfold attractionPass
  split
  · rfl
  split
  · rfl
  · exact foldl_applyWhaleForce_skip wc dt p whales h

lemma update_length (wc : WhaleCfg) (dt : ℝ) (pool : Pool) :
    (Pool.update wc dt pool).particles.length = pool.particles.length := by
  unfold Pool.update
  simp

lemma update_getElem (wc : WhaleCfg) (dt : ℝ) (pool : Pool) (i : Nat)
    (hi : i < pool.particles.length) :
    (Pool.update wc dt pool).particles.get ⟨i, by rw [update_length]; exact hi⟩ =
      attractionPass wc dt (collectWhales wc dt pool)
        (stepParticle wc dt (pool.particles.get ⟨i, hi⟩)) := by
  unfold Pool.update
  simp

lemma spawn_length (pool : Pool) (config : SpawnConfig) :
    (pool.spawn config).2.particles.length = pool.particles.length := by
  unfold Pool.spawn
  simp

/-- When every slot is skipped (all whales, non-whale spawn), the eviction
scan returns its accumulator unchanged. -/
lemma evictScan_all_skip (l : List ParticleData) (i : Nat) (acc : ℝ × Option Nat)
    (h : ∀ p ∈ l, p.isWhale = true) :
    evictScan false l i acc = acc := by
  induction l generalizing i with
  | nil => rfl
  | cons p rest ih =>
    obtain ⟨mr, idx⟩ := acc
    rw [evictScan]
    rw [if_pos (by simp [h p (by simp)])]
    exact ih _ (fun q hq => h q (by simp [hq]))

/-- Spawning a non-whale into a pool whose slots are all active whales: the
first-fit scan finds nothing, the eviction scan skips every slot, and the
spawn falls back to force-evicting slot 0. -/
lemma spawn_full_whale_pool (pool : Pool) (config : SpawnConfig)
    (hfull : ∀ p ∈ pool.particles, p.active = true ∧ p.isWhale = true)
    (hnw : config.isWhale = false) :
    pool.spawn config =
      (0, { pool with particles := pool.particles.set 0 (spawnedParticle config) }) := by
  have hfind : pool.particles.findIdx (fun p => !p.active) = pool.particles.length :=
    List.findIdx_eq_length.mpr (fun p hp => by simp [(hfull p hp).1])
  simp only [Pool.spawn]
  rw [hfind, if_neg (lt_irrefl _), hnw,
    evictScan_all_skip _ _ _ (fun p hp => (hfull p hp).2)]

lemma runOps_length (ops : List PoolOp) :
    ∀ pool : Pool, (runOps pool ops).particles.length = pool.particles.length := by
  induction ops with
  | nil => intro pool; rfl
  | cons op rest ih =>
    intro pool
    rcases op with c | ⟨wc, dt⟩
    · rw [runOps, ih, spawn_length]
    · rw [runOps, ih, update_length]

end Chainpulse

namespace Chainpulse

/-! ## Claim theorems: queue -/

lemma entriesOk_of_inv {st : TransactionQueue} {P : List QTx}
    (hnd : (keysOf st.chains).Nodup)
    (hsub : ∀ c, subQueue st c = P.filter (fun t => t.chainId == c)) :
    EntriesOk st.chains := by
  intro kv hkv t ht
  have hq : kv.2 = P.filter (fun t => t.chainId == kv.1) := by
    rw [← hsub kv.1, subQueue_of_mem hnd hkv]
  rw [hq] at ht
  exact beq_iff_eq.mp (List.mem_filter.mp ht).2

/-- C3 (amended): starting from a fresh queue, for any push sequence in which
no chain receives more than the 60-item cap (so no trim fires) and any `m`
at most the smallest per-chain backlog, draining `k*m` items (k = number of
chains) returns exactly `k*m` items, and the items of each chain are exactly
that chain's first `m` pushed transactions in their original push order. -/
theorem drain_round_robin_fairness (Bs : List (List QTx)) (m : Nat)
    (hcap : ∀ c, ((Bs.flatten).filter (fun t => t.chainId == c)).length ≤ MAX_PER_CHAIN)
    (hmin : ∀ kv ∈ (pushAll emptyQueue Bs).chains, m ≤ kv.2.length) :
    (((pushAll emptyQueue Bs).drain ((pushAll emptyQueue Bs).chains.length * m)).1).length =
      (pushAll emptyQueue Bs).chains.length * m ∧
    ∀ kv ∈ (pushAll emptyQueue Bs).chains,
      (((pushAll emptyQueue Bs).drain
          ((pushAll emptyQueue Bs).chains.length * m)).1).filter
          (fun t => t.chainId == kv.1) =
        ((Bs.flatten).filter (fun t => t.chainId == kv.1)).take m := by
  have hinv : Inv (pushAll emptyQueue Bs) Bs.flatten := by
    have := inv_pushAll Bs emptyQueue [] inv_empty (by simpa using hcap)
    simpa using this
  obtain ⟨hnd, hrr, hsub⟩ := hinv
  by_cases hch : (pushAll emptyQueue Bs).chains = []
  · constructor
    · rw [hch]
      simp [TransactionQueue.drain, drainLoop_zero]
    · intro kv hkv
      rw [hch] at hkv
      simp at hkv
  · have hne : (pushAll emptyQueue Bs).chains ≠ [] := hch
    have hdrain := drain_rounds m (pushAll emptyQueue Bs) [] hnd hne hrr hmin
    have hok : EntriesOk (pushAll emptyQueue Bs).chains := entriesOk_of_inv hnd hsub
    unfold TransactionQueue.drain
    rw [hdrain]
    constructor
    · simp [roundsResult_length]
    · intro kv hkv
      have hq : kv.2 = (Bs.flatten).filter (fun t => t.chainId == kv.1) := by
        rw [← hsub kv.1, subQueue_of_mem hnd hkv]
      have hfil := roundsResult_filter m (pushAll emptyQueue Bs).chains kv.1 kv.2 hnd hok
        hkv hmin
      simp only [List.reverse_nil, List.nil_append]
      rw [hfil, hq]

def qtx (c : String) (w : Bool) (n : Nat) : QTx := ⟨c, w, n⟩

/-- 60 non-whale transactions followed by one whale, all on one chain:
pushing this batch overflows the cap and the trim moves the whale ahead of
the older non-whales it retains. -/
def batch61 : List QTx := (List.range 60).map (fun n => qtx "a" false n) ++ [qtx "a" true 60]

set_option maxRecDepth 40000 in
/-- C3 (counterexample to the claim as stated): after pushing `batch61` into
a fresh queue there is k = 1 chain and every backlog is at least m = 2, yet
the `k*m = 2` drained items of that chain are not in their original relative
push order (the whale, pushed last, is drained before an older non-whale) —
the claim's order guarantee fails once a trim has fired. -/
theorem drain_fairness_counterexample :
    (emptyQueue.push batch61).chains.length = 1 ∧
    (∀ kv ∈ (emptyQueue.push batch61).chains, 2 ≤ kv.2.length) ∧
    ¬ ((((emptyQueue.push batch61).drain (1 * 2)).1.filter
        (fun t => t.chainId == "a")).Sublist
        (batch61.filter (fun t => t.chainId == "a"))) := by
  have hpush : emptyQueue.push batch61 =
      ⟨[("a", qtx "a" true 60 :: (List.range 29).map (fun n => qtx "a" false (31 + n)))], 0⟩ := by
    decide
  refine ⟨by rw [hpush]; rfl, by rw [hpush]; decide, ?_⟩
  have hdrain := drain_rounds 2
    ⟨[("a", qtx "a" true 60 :: (List.range 29).map (fun n => qtx "a" false (31 + n)))], 0⟩
    [] (by simp [keysOf]) (by simp) rfl (by decide)
  have h2 : ((⟨[("a", qtx "a" true 60 :: (List.range 29).map (fun n => qtx "a" false (31 + n)))], 0⟩ :
        TransactionQueue).drain (1 * 2)).1 =
      [].reverse ++ roundsResult
        [("a", qtx "a" true 60 :: (List.range 29).map (fun n => qtx "a" false (31 + n)))] 2 :=
    congrArg Prod.fst hdrain
  rw [hpush, h2]
  rw [← List.isSublist_iff_sublist]
  decide

end Chainpulse

namespace Chainpulse

/-- The C4 scenario batch: 10 whales then 60 non-whales on one chain. -/
def batch70 : List QTx :=
  (List.range 10).map (fun n => qtx "a" true n) ++
  (List.range 60).map (fun n => qtx "a" false (10 + n))

/-- What must remain: the 10 whales plus the 20 most recent non-whales. -/
def kept30 : List QTx :=
  (List.range 10).map (fun n => qtx "a" true n) ++
  (List.range 20).map (fun n => qtx "a" false (50 + n))

set_option maxRecDepth 40000 in
/-- C4: the overflow trim retains every whale-flagged item and discards only
non-whale items from the oldest end; pushing 70 items (10 whales, 60
non-whales) into one chain leaves exactly the 10 whales plus the 20 most
recent non-whales. -/
theorem trim_preserves_whales :
    (∀ (q : List QTx) (t : QTx), MAX_PER_CHAIN < q.length → t ∈ q → t.isWhale = true →
      t ∈ trimIfNeeded q) ∧
    (∀ q : List QTx, MAX_PER_CHAIN < q.length → ∃ d,
      trimIfNeeded q = q.filter (fun t => t.isWhale) ++
        (q.filter (fun t => !t.isWhale)).drop d) ∧
    (∀ (st : TransactionQueue) (B : List QTx) (c : String) (t : QTx),
      (keysOf st.chains).Nodup → t ∈ subQueue st c → t.isWhale = true →
      t ∈ subQueue (st.push B) c) ∧
    subQueue (emptyQueue.push batch70) "a" = kept30 := by
  refine ⟨?_, ?_, ?_, by decide⟩
  · intro q t _ hmem hw
    exact trimIfNeeded_whale_mem hmem hw
  · intro q hlen
    simp only [trimIfNeeded, sliceLast]
    rw [if_pos hlen]
    by_cases hk : TRIM_TARGET - (q.filter (fun t => t.isWhale)).length = 0
    · rw [if_pos hk]
      exact ⟨0, by rw [List.drop_zero]⟩
    · rw [if_neg hk]
      exact ⟨_, rfl⟩
  · intro st B c t hnd hmem hw
    rw [push_subQueue st B hnd c]
    by_cases hb : B.filter (fun t => t.chainId == c) = []
    · rw [if_pos hb]
      exact hmem
    · rw [if_neg hb]
      exact trimIfNeeded_whale_mem (List.mem_append.mpr (Or.inl hmem)) hw

/-- C4 witness: the whale of `batch61` (tag 60) survives the trim of the
oversized sub-queue, and the push-level preservation applies to it. -/
theorem trim_preserves_whales_witness :
    MAX_PER_CHAIN < batch61.length ∧ qtx "a" true 60 ∈ batch61 ∧
    qtx "a" true 60 ∈ trimIfNeeded batch61 :=
  ⟨by decide, by decide,
    trim_preserves_whales.1 batch61 (qtx "a" true 60) (by decide) (by decide) rfl⟩

/-- C9: queue operations are total — in the embedding every operation is a
total function — and draining any count from a queue whose sub-queues are all
empty (or which knows no chains at all) returns the empty list, leaves the
chain map untouched and keeps the total size at zero. -/
theorem drain_empty_total (st : TransactionQueue) (n : Nat)
    (hemp : ∀ kv ∈ st.chains, kv.2 = []) :
    (st.drain n).1 = [] ∧ (st.drain n).2.chains = st.chains ∧ (st.drain n).2.size = 0 := by
  have h := drainLoop_all_empty st.chains.length st n 0 [] (by omega) hemp
  unfold TransactionQueue.drain
  refine ⟨by rw [h.1]; rfl, h.2, ?_⟩
  unfold TransactionQueue.size
  rw [h.2]
  apply List.sum_eq_zero
  intro x hx
  obtain ⟨kv, hkv, hxe⟩ := List.mem_map.mp hx
  rw [← hxe, hemp kv hkv]
  rfl

/-- C9 witness: a queue with two known chains and empty sub-queues. -/
theorem drain_empty_total_witness :
    ((⟨[("ethereum", []), ("polygon", [])], 1⟩ : TransactionQueue).drain 7).1 = [] ∧
    ((⟨[("ethereum", []), ("polygon", [])], 1⟩ : TransactionQueue).drain 7).2.chains =
      [("ethereum", []), ("polygon", [])] ∧
    ((⟨[("ethereum", []), ("polygon", [])], 1⟩ : TransactionQueue).drain 7).2.size = 0 :=
  drain_empty_total ⟨[("ethereum", []), ("polygon", [])], 1⟩ 7 (by decide)

end Chainpulse

namespace Chainpulse

/-- C3 witness: two chains with backlogs 2 and 1; draining `2*1` items yields
chain "a"'s first push and chain "b"'s first push, in push order. -/
theorem drain_round_robin_fairness_witness :
    (((pushAll emptyQueue [[qtx "a" false 0, qtx "b" false 10], [qtx "a" false 1]]).drain
        ((pushAll emptyQueue [[qtx "a" false 0, qtx "b" false 10], [qtx "a" false 1]]).chains.length * 1)).1).length =
      (pushAll emptyQueue [[qtx "a" false 0, qtx "b" false 10], [qtx "a" false 1]]).chains.length * 1 ∧
    ∀ kv ∈ (pushAll emptyQueue [[qtx "a" false 0, qtx "b" false 10], [qtx "a" false 1]]).chains,
      (((pushAll emptyQueue [[qtx "a" false 0, qtx "b" false 10], [qtx "a" false 1]]).drain
          ((pushAll emptyQueue [[qtx "a" false 0, qtx "b" false 10], [qtx "a" false 1]]).chains.length * 1)).1).filter
          (fun t => t.chainId == kv.1) =
        (([[qtx "a" false 0, qtx "b" false 10], [qtx "a" false 1]].flatten).filter
          (fun t => t.chainId == kv.1)).take 1 :=
  drain_round_robin_fairness [[qtx "a" false 0, qtx "b" false 10], [qtx "a" false 1]] 1
    (fun c => le_trans (List.length_filter_le _ _) (by decide))
    (by decide)

end Chainpulse

namespace Chainpulse

/-! ## Claim theorems: whale detector -/

/-- An environment with no user USD floor, no cached prices and no token
registry entries (the store default `whaleThresholdUsd = 0`). -/
def envNoFloor : DetectorEnv := ⟨0, fun _ => none, fun _ _ => none⟩

def scenKey : DetectionKey := ("ethereum", some "FOO")

/-- 190 samples of 1 and 10 samples of 8: a full 200-sample window whose
95th-percentile value is 8. -/
def scenState : ChainState := ⟨List.replicate 190 1 ++ List.replicate 10 8, 0, 200, 0⟩

def scenDetector : DetectorState := [(scenKey, scenState)]

set_option maxRecDepth 1000000 in
/-- The scenario state is exactly what feeding the 200 samples produces. -/
lemma scenDetector_reachable :
    recordAll [] scenKey (List.replicate 190 1 ++ List.replicate 10 8) = scenDetector := by
  decide

/-- C5: `threshold(key)` returns the statically configured per-asset
threshold (with the user USD floor applied) while fewer than 20 samples are
buffered, and the greater of the static threshold and 2.0 times the buffered
samples' 95th-percentile value (same floor applied) once 20 or more are
buffered. -/
theorem threshold_cold_warm (env : DetectorEnv) (st : DetectorState) (k : DetectionKey) :
    (bufferFill st k < 20 →
      getThreshold env st k = applyUserFloor env (staticThresholdOf env k) k.1 k.2) ∧
    (20 ≤ bufferFill st k →
      getThreshold env st k =
        applyUserFloor env
          (max (staticThresholdOf env k) (p95OfSamples (bufferedSamples st k) * 2)) k.1 k.2) := by
  rw [getThreshold_spec]
  constructor
  · intro h
    rw [if_pos h]
  · intro h
    rw [if_neg (not_lt.mpr h)]

/-- C5 witness: a cold key (empty detector) and a warm key (the 200-sample
scenario state). -/
theorem threshold_cold_warm_witness :
    (bufferFill [] ("ethereum", none) < 20 ∧
      getThreshold envNoFloor [] ("ethereum", none) =
        applyUserFloor envNoFloor (staticThresholdOf envNoFloor ("ethereum", none))
          "ethereum" none) ∧
    (20 ≤ bufferFill scenDetector scenKey ∧
      getThreshold envNoFloor scenDetector scenKey =
        applyUserFloor envNoFloor
          (max (staticThresholdOf envNoFloor scenKey)
            (p95OfSamples (bufferedSamples scenDetector scenKey) * 2)) scenKey.1 scenKey.2) :=
  ⟨⟨by decide, (threshold_cold_warm envNoFloor [] ("ethereum", none)).1 (by decide)⟩,
   ⟨by decide, (threshold_cold_warm envNoFloor scenDetector scenKey).2 (by decide)⟩⟩

/-- The cold ethereum-native threshold under the default environment is the
static configured 5. -/
lemma getThreshold_eth_cold : getThreshold envNoFloor [] ("ethereum", none) = 5 := by
  rw [getThreshold_spec,
    if_pos (by decide : bufferFill ([] : DetectorState) ("ethereum", none) < 20),
    applyUserFloor_nonpos (by norm_num [envNoFloor])]
  decide

/-- C6: `isWhale(key, value)` fires iff the value clears twice the normal
threshold within the 3000 ms cooldown window since the key's last trigger
and iff it clears it once otherwise; a fire records `now` as the key's
last-trigger timestamp and a non-fire leaves it unchanged.  On a cold
detector with static threshold 5, the value 5.0 fires and 4.999 does not. -/
theorem whale_cooldown_spec (env : DetectorEnv) (st : DetectorState) (k : DetectionKey)
    (v : ℚ) (now : Int) :
    ((detectorIsWhale env st k v now).1 = true ↔
      (if now - lastTrigger st k < COOLDOWN_MS then getThreshold env st k * 2 ≤ v
       else getThreshold env st k ≤ v)) ∧
    (lastTrigger (detectorIsWhale env st k v now).2 k =
      if (detectorIsWhale env st k v now).1 then now else lastTrigger st k) ∧
    (detectorIsWhale envNoFloor [] ("ethereum", none) 5 1000000).1 = true ∧
    (detectorIsWhale envNoFloor [] ("ethereum", none) (4999/1000) 1000000).1 = false := by
  obtain ⟨h1, h2⟩ := detectorIsWhale_spec env st k v now
  refine ⟨?_, h2, ?_, ?_⟩
  · rw [h1]
    by_cases hcd : now - lastTrigger st k < COOLDOWN_MS
    · rw [if_pos hcd, if_pos hcd, decide_eq_true_eq]
    · rw [if_neg hcd, if_neg hcd, decide_eq_true_eq]
  · have hc := (detectorIsWhale_spec envNoFloor [] ("ethereum", none) 5 1000000).1
    rw [hc, if_neg (by decide), getThreshold_eth_cold]
    decide
  · have hc := (detectorIsWhale_spec envNoFloor [] ("ethereum", none) (4999/1000) 1000000).1
    rw [hc, if_neg (by decide), getThreshold_eth_cold]
    simp only [decide_eq_false_iff_not]
    norm_num

end Chainpulse

namespace Chainpulse

/-! ## Claim C2: classifier whale routing -/

/-- `isWhale` of the adaptive detector on a single-entry store, fully
evaluated. -/
lemma detectorIsWhale_single (env : DetectorEnv) (k : DetectionKey) (s : ChainState)
    (v : ℚ) (now : Int) :
    detectorIsWhale env [(k, s)] k v now =
      if now - s.lastWhaleTime < COOLDOWN_MS then
        (if getThreshold env [(k, s)] k * 2 ≤ v
         then (true, [(k, { s with lastWhaleTime := now })]) else (false, [(k, s)]))
      else
        (if getThreshold env [(k, s)] k ≤ v
         then (true, [(k, { s with lastWhaleTime := now })]) else (false, [(k, s)])) := by
  have hfind : ([(k, s)] : DetectorState).find? (fun kv => kv.1 == k) = some (k, s) := by
    simp [List.find?]
  simp only [detectorIsWhale, getStateIn, hfind, setState, List.map_cons, List.map_nil,
    beq_self_eq_true, if_true]

/-- A warm adaptive state for the native ethereum key: 20 buffered samples of
value 100, buffer head at position 20. -/
def cexState : ChainState := ⟨List.replicate 20 100 ++ List.replicate 180 0, 20, 20, 0⟩

def cexKey : DetectionKey := ("ethereum", none)

def cexDetector : DetectorState := [(cexKey, cexState)]

/-- A native transfer of 6 ETH (6e18 wei), no token payload. -/
def rawNative6 : RawTransaction := ⟨"ethereum", 6 * 10 ^ 18, none⟩

/-- `cexState` after recording the 6-ETH value. -/
def cexRecState : ChainState :=
  ⟨List.replicate 20 100 ++ 6 :: List.replicate 179 0, 21, 21, 0⟩

set_option maxRecDepth 1000000 in
lemma cex_record : recordValue cexDetector cexKey 6 = [(cexKey, cexRecState)] := by
  decide

set_option maxRecDepth 100000 in
/-- The warm adaptive threshold over the recorded buffer: p95 of
{100 x 20, 6} is 100, amplified to 200. -/
lemma cex_threshold : getThreshold envNoFloor [(cexKey, cexRecState)] cexKey = 200 := by
  rw [getThreshold_spec,
    if_neg (by decide : ¬ bufferFill [(cexKey, cexRecState)] cexKey < 20),
    applyUserFloor_nonpos (by decide)]
  rw [show bufferedSamples [(cexKey, cexRecState)] cexKey =
      List.replicate 20 100 ++ [6] from by decide]
  rw [show p95OfSamples (List.replicate 20 (100:ℚ) ++ [6]) = 100 from by decide]
  rw [show staticThresholdOf envNoFloor cexKey = 5 from by decide]
  norm_num

end Chainpulse

namespace Chainpulse

set_option maxRecDepth 1000000 in
/-- C2 counterexample: the claim routes every transaction through the adaptive
detector under its detection key, but the code sends native transfers through
the static per-chain `isWhale`.  On a store whose ethereum buffer is warm with
20 samples of 100, a native 6-ETH transfer classifies as whale (static
threshold 5) while the adaptive detector at the same key and value does not
(adaptive threshold 200), so the classifier and the adaptive detector
disagree. -/
theorem classify_adaptive_counterexample :
    ¬ (∀ (env : DetectorEnv) (st : DetectorState) (raw : RawTransaction) (now : Int),
        (classifyWhale env st raw now).1 =
          (detectorIsWhale env
            (recordValue st (txDetectionKey raw) (txValueInToken raw))
            (txDetectionKey raw) (txValueInToken raw) now).1) := by
  intro hall
  have hkey : txDetectionKey rawNative6 = cexKey := rfl
  have hv : txValueInToken rawNative6 = 6 := by
    simp only [txValueInToken, rawNative6]
    norm_num
  have h := hall envNoFloor cexDetector rawNative6 1000000
  rw [classifyWhale_native envNoFloor cexDetector rawNative6 1000000 rfl, hkey, hv,
    cex_record, detectorIsWhale_single,
    if_neg (by decide : ¬ ((1000000:Int) - cexRecState.lastWhaleTime < COOLDOWN_MS)),
    if_neg (by rw [cex_threshold]; norm_num)] at h
  have hstat : staticIsWhale rawNative6 = true := by
    simp only [staticIsWhale, rawNative6]
    rw [show chainWhaleThreshold "ethereum" = some 5 from by decide]
    simp only [decide_eq_true_eq]
    push_cast
    norm_num
  rw [hstat] at h
  simp at h

end Chainpulse

namespace Chainpulse

/-! ### The adaptive 200-sample scenario (token path) -/

def rawT14999 : RawTransaction := ⟨"ethereum", 0, some ⟨14999, 3, "FOO", false⟩⟩

def rawT16 : RawTransaction := ⟨"ethereum", 0, some ⟨16000, 3, "FOO", false⟩⟩

/-- `scenState` after recording the 14.999 token value at head 0. -/
def scen1State : ChainState :=
  ⟨(14999/1000 : ℚ) :: (List.replicate 189 1 ++ List.replicate 10 8), 1, 200, 0⟩

/-- `scen1State` after recording the 16.0 token value at head 1. -/
def scen2State : ChainState :=
  ⟨(14999/1000 : ℚ) :: (16:ℚ) :: (List.replicate 188 1 ++ List.replicate 10 8), 2, 200, 0⟩

lemma set_rep190 (v : ℚ) :
    (List.replicate 190 (1:ℚ) ++ List.replicate 10 8).set 0 v =
      v :: (List.replicate 189 1 ++ List.replicate 10 8) := by
  rw [show (190:Nat) = 189+1 from rfl, List.replicate_succ, List.cons_append,
    List.set_cons_zero]

lemma set_rep189 (v : ℚ) :
    (List.replicate 189 (1:ℚ) ++ List.replicate 10 8).set 0 v =
      v :: (List.replicate 188 1 ++ List.replicate 10 8) := by
  rw [show (189:Nat) = 188+1 from rfl, List.replicate_succ, List.cons_append,
    List.set_cons_zero]

lemma set_scen1_vals (v w : ℚ) :
    (v :: (List.replicate 189 (1:ℚ) ++ List.replicate 10 8)).set 1 w =
      v :: w :: (List.replicate 188 1 ++ List.replicate 10 8) := by
  rw [show (1:Nat) = 0 + 1 from rfl, List.set_cons_succ, set_rep189]

lemma scen_rec1 : recordValue scenDetector scenKey (14999/1000) = [(scenKey, scen1State)] := by
  rw [show scenDetector = [(scenKey, scenState)] from rfl, recordValue_single]
  simp only [scenState]
  rw [set_rep190, if_neg (by decide : ¬ (200 < WINDOW_SIZE)),
    show (0+1) % WINDOW_SIZE = 1 from by decide]
  rfl

lemma scen_rec2 : recordValue [(scenKey, scen1State)] scenKey 16 = [(scenKey, scen2State)] := by
  rw [recordValue_single]
  simp only [scen1State]
  rw [set_scen1_vals, if_neg (by decide : ¬ (200 < WINDOW_SIZE)),
    show (1+1) % WINDOW_SIZE = 2 from by decide]
  rfl

set_option maxRecDepth 100000 in
/-- p95 over one off-scale sample and the 189 x 1 / 10 x 8 window is 8. -/
lemma p95_scen1 (v : ℚ) (hv8 : ¬ v ≤ 8) :
    p95OfSamples (v :: (List.replicate 189 (1:ℚ) ++ List.replicate 10 8)) = 8 := by
  apply p95OfSamples_eq_of_counts _ 8 190
  · rw [show (v :: (List.replicate 189 (1:ℚ) ++ List.replicate 10 8)).length = 200 from by
      simp]
    decide
  · simp
  · have hpv : ¬ (decide (v < 8) = true) := by
      simp only [decide_eq_true_eq]
      exact fun hlt => hv8 (le_of_lt hlt)
    simp only [List.countP_cons]
    rw [if_neg hpv]
    decide
  · have hpv : ¬ (decide (v ≤ 8) = true) := by
      simp only [decide_eq_true_eq]
      exact hv8
    simp only [List.countP_cons]
    rw [if_neg hpv]
    decide

set_option maxRecDepth 100000 in
/-- p95 over two off-scale samples and the 188 x 1 / 10 x 8 window is 8. -/
lemma p95_scen2 (v w : ℚ) (hv8 : ¬ v ≤ 8) (hw8 : ¬ w ≤ 8) :
    p95OfSamples (v :: w :: (List.replicate 188 (1:ℚ) ++ List.replicate 10 8)) = 8 := by
  apply p95OfSamples_eq_of_counts _ 8 190
  · rw [show (v :: w :: (List.replicate 188 (1:ℚ) ++ List.replicate 10 8)).length = 200 from by
      simp]
    decide
  · simp
  · have hpv : ¬ (decide (v < 8) = true) := by
      simp only [decide_eq_true_eq]
      exact fun hlt => hv8 (le_of_lt hlt)
    have hpw : ¬ (decide (w < 8) = true) := by
      simp only [decide_eq_true_eq]
      exact fun hlt => hw8 (le_of_lt hlt)
    simp only [List.countP_cons]
    rw [if_neg hpv, if_neg hpw]
    decide
  · have hpv : ¬ (decide (v ≤ 8) = true) := by
      simp only [decide_eq_true_eq]
      exact hv8
    have hpw : ¬ (decide (w ≤ 8) = true) := by
      simp only [decide_eq_true_eq]
      exact hw8
    simp only [List.countP_cons]
    rw [if_neg hpv, if_neg hpw]
    decide

/-- The warm threshold for the scenario key: max(static 5, 8 * 2) = 16. -/
lemma scen_threshold (s : ChainState) (hfill : s.fill = 200)
    (hsamp : p95OfSamples (s.values.take s.fill) = 8) :
    getThreshold envNoFloor [(scenKey, s)] scenKey = 16 := by
  rw [getThreshold_spec,
    if_neg (by rw [bufferFill_single, hfill]; decide),
    applyUserFloor_nonpos (by decide),
    bufferedSamples_single, hsamp,
    show staticThresholdOf envNoFloor scenKey = 5 from by decide]
  norm_num

lemma scen1_th : getThreshold envNoFloor [(scenKey, scen1State)] scenKey = 16 := by
  apply scen_threshold
  · decide
  · rw [show scen1State.values.take scen1State.fill =
        (14999/1000 : ℚ) :: (List.replicate 189 1 ++ List.replicate 10 8) from by
      simp only [scen1State]
      apply List.take_of_length_le
      simp only [List.length_cons, List.length_append, List.length_replicate]
      omega]
    exact p95_scen1 _ (by norm_num)

lemma scen2_th : getThreshold envNoFloor [(scenKey, scen2State)] scenKey = 16 := by
  apply scen_threshold
  · decide
  · rw [show scen2State.values.take scen2State.fill =
        (14999/1000 : ℚ) :: (16:ℚ) :: (List.replicate 188 1 ++ List.replicate 10 8) from by
      simp only [scen2State]
      apply List.take_of_length_le
      simp only [List.length_cons, List.length_append, List.length_replicate]
      omega]
    exact p95_scen2 _ _ (by norm_num) (by norm_num)

lemma scen_classify1 :
    classifyWhale envNoFloor scenDetector rawT14999 1000000 = (false, [(scenKey, scen1State)]) := by
  rw [classifyWhale_token envNoFloor scenDetector rawT14999 ⟨14999, 3, "FOO", false⟩ 1000000 rfl,
    show txDetectionKey rawT14999 = scenKey from rfl,
    show txValueInToken rawT14999 = 14999/1000 from by
      simp only [txValueInToken, rawT14999]; norm_num,
    scen_rec1, detectorIsWhale_single,
    if_neg (by decide : ¬ ((1000000:Int) - scen1State.lastWhaleTime < COOLDOWN_MS)),
    if_neg (by rw [scen1_th]; norm_num)]

lemma scen_classify2 :
    (classifyWhale envNoFloor [(scenKey, scen1State)] rawT16 1000000).1 = true := by
  rw [classifyWhale_token envNoFloor [(scenKey, scen1State)] rawT16 ⟨16000, 3, "FOO", false⟩
      1000000 rfl,
    show txDetectionKey rawT16 = scenKey from rfl,
    show txValueInToken rawT16 = 16 from by
      simp only [txValueInToken, rawT16]; norm_num,
    scen_rec2, detectorIsWhale_single,
    if_neg (by decide : ¬ ((1000000:Int) - scen2State.lastWhaleTime < COOLDOWN_MS)),
    if_pos (by rw [scen2_th])]

/-- C2 (amended): `mapTransaction` records every incoming value under its
detection key (chainId for native transfers, chainId:symbol for token
transfers), but evaluates whale status through the adaptive detector only for
token transfers; native transfers are classified by the static per-chain
`isWhale`.  On the token path the claimed scenario holds: after a key's window
holds 200 samples whose 95th percentile is 8.0, a value of 14.999 does not
classify as whale and a following value of 16.0 does. -/
theorem classify_whale_routing :
    (∀ (env : DetectorEnv) (st : DetectorState) (raw : RawTransaction) (now : Int),
       raw.tokenTransfer = none →
       classifyWhale env st raw now =
         (staticIsWhale raw, recordValue st (txDetectionKey raw) (txValueInToken raw))) ∧
    (∀ (env : DetectorEnv) (st : DetectorState) (raw : RawTransaction)
       (tt : TokenTransfer) (now : Int),
       raw.tokenTransfer = some tt →
       classifyWhale env st raw now =
         detectorIsWhale env (recordValue st (txDetectionKey raw) (txValueInToken raw))
           (txDetectionKey raw) (txValueInToken raw) now) ∧
    (classifyWhale envNoFloor scenDetector rawT14999 1000000).1 = false ∧
    (classifyWhale envNoFloor
      (classifyWhale envNoFloor scenDetector rawT14999 1000000).2 rawT16 1000000).1 = true := by
  refine ⟨fun env st raw now h => classifyWhale_native env st raw now h,
          fun env st raw tt now h => classifyWhale_token env st raw tt now h, ?_, ?_⟩
  · rw [scen_classify1]
  · rw [scen_classify1]
    exact scen_classify2

/-- C2 witness: the routing conjuncts applied to the concrete native 6-ETH
transfer and the concrete FOO token transfer. -/
theorem classify_whale_routing_witness :
    classifyWhale envNoFloor [] rawNative6 5 =
      (staticIsWhale rawNative6,
        recordValue [] (txDetectionKey rawNative6) (txValueInToken rawNative6)) ∧
    classifyWhale envNoFloor [] rawT16 5 =
      detectorIsWhale envNoFloor
        (recordValue [] (txDetectionKey rawT16) (txValueInToken rawT16))
        (txDetectionKey rawT16) (txValueInToken rawT16) 5 :=
  ⟨classify_whale_routing.1 envNoFloor [] rawNative6 5 rfl,
   classify_whale_routing.2.1 envNoFloor [] rawT16 ⟨16000, 3, "FOO", false⟩ 5 rfl⟩

end Chainpulse

namespace Chainpulse

/-! ## Claim theorems: particle pool -/

/-- A whale config with the first copy's glow times (2.5 s rise, 3.5 s fall;
attraction 6.0 / 0.8 / 0.4, spawn ease 1.5 s, at most 6 whales). -/
noncomputable def wcA : WhaleCfg := ⟨2.5, 3.5, 6.0, 0.8, 0.4, 1.5, 6⟩

/-- An active whale slot. -/
noncomputable def whaleSlot : ParticleData :=
  { createEmpty with active := true, isWhale := true }

/-- A pool of three active whale slots. -/
noncomputable def pool3 : Pool := ⟨[whaleSlot, whaleSlot, whaleSlot], 3⟩

/-- A non-whale spawn request. -/
noncomputable def cfgN : SpawnConfig :=
  { x := 0, y := 0, z := 0, vx := 0, vy := 0, vz := 0, size := 1,
    r := 1, g := 1, b := 1, maxAge := 5, isWhale := false, chainId := "ethereum",
    dampingMult := 1, energyHalfLifeMult := 1, hash := "", fromAddr := "",
    toAddr := none, value := 1, whaleValue := 0, gasPrice := 0, timestamp := 0,
    tokenSymbol := "" }

lemma pool3_full : ∀ p ∈ pool3.particles, p.active = true ∧ p.isWhale = true := by
  intro p hp
  simp only [pool3, List.mem_cons, List.not_mem_nil, or_false] at hp
  rcases hp with h | h | h <;> subst h <;> exact ⟨rfl, rfl⟩

/-- C1 counterexample: spawning a non-whale into a pool of three active
whales force-evicts slot 0, overwriting a whale with the non-whale spawn, so
the claimed invariant (no whale is overwritten) fails. -/
theorem whale_eviction_counterexample :
    ¬ (∀ (pool : Pool) (config : SpawnConfig),
        (∀ p ∈ pool.particles, p.active = true ∧ p.isWhale = true) →
        config.isWhale = false →
        ∀ q ∈ (pool.spawn config).2.particles, q.isWhale = true) := by
  intro hall
  have h := hall pool3 cfgN pool3_full rfl
  have hmem : spawnedParticle cfgN ∈ (pool3.spawn cfgN).2.particles := by
    rw [spawn_full_whale_pool pool3 cfgN pool3_full rfl]
    simp only [pool3]
    rw [List.set_cons_zero]
    exact List.mem_cons_self _ _
  have h2 := h _ hmem
  simp [spawnedParticle, cfgN] at h2

/-- C1 (amended): when every slot of the pool is an active whale and the
incoming spawn is a non-whale, the first-fit scan finds no free slot, the
eviction scan skips every whale and returns no candidate, and the spawn
force-evicts slot 0: the whale in slot 0 is overwritten by the non-whale
spawn (the active count is not touched by `spawn` itself). -/
theorem spawn_full_whale_slot0 (pool : Pool) (config : SpawnConfig)
    (hfull : ∀ p ∈ pool.particles, p.active = true ∧ p.isWhale = true)
    (hnw : config.isWhale = false) :
    (pool.spawn config).1 = 0 ∧
    (pool.spawn config).2.particles = pool.particles.set 0 (spawnedParticle config) ∧
    (pool.spawn config).2.activeCount = pool.activeCount := by
  rw [spawn_full_whale_pool pool config hfull hnw]
  exact ⟨rfl, rfl, rfl⟩

/-- C1 witness: the amended slot-0 eviction applied to the concrete
three-whale pool and non-whale spawn. -/
theorem spawn_full_whale_slot0_witness :
    (pool3.spawn cfgN).1 = 0 ∧
    (pool3.spawn cfgN).2.particles = pool3.particles.set 0 (spawnedParticle cfgN) ∧
    (pool3.spawn cfgN).2.activeCount = pool3.activeCount :=
  spawn_full_whale_slot0 pool3 cfgN pool3_full rfl

/-- C7: for every sequence of spawn and update operations on a pool built
with capacity C, the number of slots whose active flag is set never exceeds
C: the slot array is allocated once at construction and spawn/update only
rewrite slots in place. -/
theorem pool_capacity_invariant (capacity : Nat) (ops : List PoolOp) :
    (runOps (mkPool capacity) ops).particles.countP (fun p => p.active) ≤ capacity := by
  refine le_trans (List.countP_le_length _) ?_
  rw [runOps_length]
  simp [mkPool]

end Chainpulse

namespace Chainpulse

/-- C8: across one `update(dt)` call with dt > 0, the energy of every slot
with non-negative energy and positive half-life multiplier does not increase,
and stays non-negative (whales and non-whales alike; the attraction pass only
touches velocities, and the lifecycle step multiplies energy by
exp(-dt * ln2/halfLife / mult) <= 1 or leaves it unchanged). -/
theorem energy_decay_monotone (wc : WhaleCfg) (dt : ℝ) (pool : Pool) (i : Nat)
    (hi : i < pool.particles.length) (hdt : 0 < dt)
    (he : 0 ≤ (pool.particles.get ⟨i, hi⟩).energy)
    (hm : 0 < (pool.particles.get ⟨i, hi⟩).energyHalfLifeMult) :
    ((Pool.update wc dt pool).particles.get ⟨i, by rw [update_length]; exact hi⟩).energy ≤
      (pool.particles.get ⟨i, hi⟩).energy ∧
    0 ≤ ((Pool.update wc dt pool).particles.get ⟨i, by rw [update_length]; exact hi⟩).energy := by
  have henergy : (attractionPass wc dt (collectWhales wc dt pool)
      (stepParticle wc dt (pool.particles.get ⟨i, hi⟩))).energy =
      (stepParticle wc dt (pool.particles.get ⟨i, hi⟩)).energy := by
    obtain ⟨a, b, c, hap⟩ := attractionPass_only_velocity wc dt (collectWhales wc dt pool)
      (stepParticle wc dt (pool.particles.get ⟨i, hi⟩))
    rw [hap]
  rw [update_getElem wc dt pool i hi, henergy, stepParticle_energy]
  by_cases hc : (pool.particles.get ⟨i, hi⟩).active = true ∧
      (pool.particles.get ⟨i, hi⟩).age + dt < (pool.particles.get ⟨i, hi⟩).maxAge
  · rw [if_pos hc]
    have hexp : Real.exp (-dt * (Real.log 2 / LIFECYCLE.energyHalfLife) /
        (pool.particles.get ⟨i, hi⟩).energyHalfLifeMult) ≤ 1 := by
      rw [Real.exp_le_one_iff]
      apply div_nonpos_iff.mpr
      refine Or.inr ⟨?_, hm.le⟩
      have hlog : 0 < Real.log 2 := Real.log_pos (by norm_num)
      have hhl : (0:ℝ) < LIFECYCLE.energyHalfLife := by norm_num [LIFECYCLE.energyHalfLife]
      have hq : 0 < Real.log 2 / LIFECYCLE.energyHalfLife := div_pos hlog hhl
      nlinarith
    constructor
    · exact mul_le_of_le_one_right he hexp
    · exact mul_nonneg he (Real.exp_pos _).le
  · rw [if_neg hc]
    exact ⟨le_refl _, he⟩

/-- An active non-whale slot with unit energy, used as the C8 witness pool. -/
noncomputable def c8slot : ParticleData :=
  { createEmpty with active := true, energy := 1, maxAge := 5 }

noncomputable def c8pool : Pool := ⟨[c8slot], 1⟩

/-- C8 witness: the decay bound applied to a one-slot pool over a 1-second
tick. -/
theorem energy_decay_monotone_witness :
    ((Pool.update wcA 1 c8pool).particles.get
        ⟨0, by rw [update_length]; simp [c8pool]⟩).energy ≤
      (c8pool.particles.get ⟨0, by simp [c8pool]⟩).energy ∧
    0 ≤ ((Pool.update wcA 1 c8pool).particles.get
        ⟨0, by rw [update_length]; simp [c8pool]⟩).energy :=
  energy_decay_monotone wcA 1 c8pool 0 (by simp [c8pool]) (by norm_num)
    (by show (0:ℝ) ≤ 1; norm_num) (by show (0:ℝ) < 1; norm_num)

end Chainpulse

namespace Chainpulse

/-- C10: the gravitational/swirl attraction pass is a pure velocity effect:
it never changes a slot's position, age, size, opacity, energy, active flag
or whale flag; it leaves whale slots and inactive slots entirely unchanged;
it leaves slots outside every collected whale's attraction shell (or inside
the minimum-distance guard) entirely unchanged; and inside `update(dt)` each
final slot is exactly the attraction pass applied to the lifecycle-stepped
slot. -/
theorem attraction_pass_frame :
    (∀ (wc : WhaleCfg) (dt : ℝ) (whales : List ParticleData) (p : ParticleData),
      (attractionPass wc dt whales p).x = p.x ∧
      (attractionPass wc dt whales p).y = p.y ∧
      (attractionPass wc dt whales p).z = p.z ∧
      (attractionPass wc dt whales p).age = p.age ∧
      (attractionPass wc dt whales p).size = p.size ∧
      (attractionPass wc dt whales p).opacity = p.opacity ∧
      (attractionPass wc dt whales p).energy = p.energy ∧
      (attractionPass wc dt whales p).active = p.active ∧
      (attractionPass wc dt whales p).isWhale = p.isWhale) ∧
    (∀ (wc : WhaleCfg) (dt : ℝ) (whales : List ParticleData) (p : ParticleData),
      p.isWhale = true → attractionPass wc dt whales p = p) ∧
    (∀ (wc : WhaleCfg) (dt : ℝ) (whales : List ParticleData) (p : ParticleData),
      p.active = false → attractionPass wc dt whales p = p) ∧
    (∀ (wc : WhaleCfg) (dt : ℝ) (whales : List ParticleData) (p : ParticleData),
      (∀ w ∈ whales,
        (w.x - p.x) * (w.x - p.x) + (w.y - p.y) * (w.y - p.y) + (w.z - p.z) * (w.z - p.z) >
            wc.attractionRadius * wc.attractionRadius ∨
          (w.x - p.x) * (w.x - p.x) + (w.y - p.y) * (w.y - p.y) + (w.z - p.z) * (w.z - p.z) <
            0.01) →
      attractionPass wc dt whales p = p) ∧
    (∀ (wc : WhaleCfg) (dt : ℝ) (pool : Pool) (i : Nat) (hi : i < pool.particles.length),
      (Pool.update wc dt pool).particles.get ⟨i, by rw [update_length]; exact hi⟩ =
        attractionPass wc dt (collectWhales wc dt pool)
          (stepParticle wc dt (pool.particles.get ⟨i, hi⟩))) := by
  refine ⟨?_, ?_, ?_, ?_, ?_⟩
  · intro wc dt whales p
    obtain ⟨a, b, c, h⟩ := attractionPass_only_velocity wc dt whales p
    rw [h]
    exact ⟨rfl, rfl, rfl, rfl, rfl, rfl, rfl, rfl, rfl⟩
  · exact fun wc dt whales p h => attractionPass_whale wc dt whales p h
  · exact fun wc dt whales p h => attractionPass_inactive wc dt whales p h
  · exact fun wc dt whales p h => attractionPass_out_of_range wc dt whales p h
  · exact fun wc dt pool i hi => update_getElem wc dt pool i hi

/-- An active whale slot for the C10 witness. -/
noncomputable def wSlot : ParticleData := { createEmpty with isWhale := true }

/-- C10 witness: the whale-skip and inactive-skip conjuncts applied to
concrete slots. -/
theorem attraction_pass_frame_witness :
    attractionPass wcA 1 [] wSlot = wSlot ∧
    attractionPass wcA 1 [] createEmpty = createEmpty :=
  ⟨attraction_pass_frame.2.1 wcA 1 [] wSlot rfl,
   attraction_pass_frame.2.2.1 wcA 1 [] createEmpty rfl⟩

end Chainpulse
